import Mathlib

/-!
# Indirect-call instrumentation passes: `DynamicFP` and `HelloWorld`

A shallow embedding of the two LLVM passes of the repository:

* `src/DynamicFP.cpp`: the module pass that declares `printf`, installs the
  format-string global `PrintfFormatStr` and inserts a call to `printf` at the
  entry of a function for each indirect call found in it;
* `src/HelloWorld.cpp`: the function pass that writes one CSV row per indirect
  call to `function_pointers.csv`.

The part of the LLVM API the passes use is modelled in the namespace `LLVM`:
a module is a list of functions and a list of global variables, a function a
list of basic blocks, a basic block a list of instructions.

* Pointers are opaque (`ptr`), so a pointer cast of a global is the global.
* A global variable is referred to by its position in the module's list of
  globals, which only ever grows at the end.
* Functions, global variables, aliases and ifuncs share one symbol table; a
  new symbol whose name is taken is renamed as LLVM does it.
* A dereferenced null pointer ends the run without result (`none`).
* An instruction is identified by its content; the value it defines by a
  number.
* Where LLVM returns `end()` for the first insertion point, the model inserts
  at the end of the block.
* Opening and writing the log file are taken to succeed.

The file first gives the definitions (the model of LLVM, the two passes, and
what the theorems are stated with), then the theorems.  The two loops of
`DynamicFP` that walk a function while it is being changed are defined by
well-founded recursion; the lemmas their termination needs stand right before
them.
-/

set_option autoImplicit false

namespace LLVM

/-- Types of the intermediate representation, as far as the passes look at them. -/
inductive Ty
  | void
  | int (bits : Nat)
  | ptr
  | array (len : Nat) (elem : Ty)
  deriving DecidableEq, Repr

/-- Mirrors `Type::isPointerTy`. -/
def Ty.isPointerTy : Ty → Bool
  | .ptr => true
  | _ => false

/-- Mirrors `FunctionType`: return type, parameter types, variadic flag. -/
structure FunctionType where
  ret : Ty
  params : List Ty
  isVarArg : Bool
  deriving DecidableEq, Repr

/-- Values that can stand as operands.  `inst id ty` is the result of the
instruction that defines value number `id`; `global idx` is the address of
the module's global variable number `idx`; `func name fty` is the address of
the function `name`, whose own function type is `fty`. -/
inductive Value
  | inst (id : Nat) (ty : Ty)
  | arg (idx : Nat) (ty : Ty)
  | func (name : String) (fty : FunctionType)
  | global (idx : Nat)
  | constant (ty : Ty) (payload : Nat)
  | castExpr (v : Value) (ty : Ty)
  deriving DecidableEq, Repr

/-- Mirrors `Value::getType`. -/
def Value.getType : Value → Ty
  | .inst _ ty => ty
  | .arg _ ty => ty
  | .func _ _ => Ty.ptr
  | .global _ => Ty.ptr
  | .constant ty _ => ty
  | .castExpr _ ty => ty

/-- Instructions.  `phi` is a `PHINode`; `ehPad` is an instruction for which
`isEHPad()` holds (a landing pad, say); `call` is a `CallBase` (call, invoke
or callbr) with the function type of the call, the called operand and the
arguments; `other` is every other instruction.  `result` is the number under
which operands refer to the instruction's value, when it has one. -/
inductive Instr
  | phi (result : Nat) (ty : Ty) (incoming : List Value)
  | ehPad (result : Option Nat) (operands : List Value)
  | call (result : Option Nat) (fnTy : FunctionType) (calledOperand : Value)
      (args : List Value)
  | other (result : Option Nat) (opcode : String) (operands : List Value)
  deriving DecidableEq, Repr

/-- Is the instruction a `PHINode`. -/
def Instr.isPHI : Instr → Bool
  | .phi _ _ _ => true
  | _ => false

/-- Mirrors `Instruction::isEHPad`. -/
def Instr.isEHPad : Instr → Bool
  | .ehPad _ _ => true
  | _ => false

/-- The value number an instruction defines, if any. -/
def Instr.result? : Instr → Option Nat
  | .phi r _ _ => some r
  | .ehPad r _ => r
  | .call r _ _ _ => r
  | .other r _ _ => r

/-- All operands of an instruction; for a call the called operand comes last,
as in LLVM's operand list. -/
def Instr.operands : Instr → List Value
  | .phi _ _ inc => inc
  | .ehPad _ ops => ops
  | .call _ _ callee args => args ++ [callee]
  | .other _ _ ops => ops

/-- Mirrors `CallBase::getCalledFunction` on the fields of a call: the called
operand must be a function whose own type is the function type of the call. -/
def getCalledFunction (fnTy : FunctionType) (calledOperand : Value) : Option String :=
  match calledOperand with
  | .func name fty => if fty = fnTy then some name else none
  | _ => none

/-- A basic block is its list of instructions. -/
abbrev BasicBlock := List Instr

/-- Attributes the pass sets, and any other. -/
inductive Attr
  | NoUnwind
  | NoCapture
  | ReadOnly
  | otherAttr (tag : Nat)
  deriving DecidableEq, Repr

/-- A function of a module: a declaration when `blocks` is empty. -/
structure Function where
  name : String
  fnTy : FunctionType
  fnAttrs : List Attr
  paramAttrs : List (Nat × Attr)
  blocks : List BasicBlock
  deriving DecidableEq, Repr

/-- Linkage of a global variable. -/
inductive Linkage
  | ExternalLinkage
  | PrivateLinkage
  deriving DecidableEq, Repr

/-- Constant initializers: `dataArrayString s` is
`ConstantDataArray::getString(CTX, s)`, the bytes of `s` followed by a NUL. -/
inductive Constant
  | dataArrayString (s : String)
  | otherConstant (ty : Ty) (tag : Nat)
  deriving DecidableEq, Repr

/-- Mirrors `Constant::getType`: a string constant is an array of as many
`i8` as the string has bytes, and one more for the NUL. -/
def Constant.getType : Constant → Ty
  | .dataArrayString s => Ty.array (s.utf8ByteSize + 1) (Ty.int 8)
  | .otherConstant ty _ => ty

/-- A global variable of a module; an unnamed one has the empty name. -/
structure GlobalVariable where
  name : String
  valueType : Ty
  isConstant : Bool
  linkage : Linkage
  unnamedAddr : Bool
  initializer : Option Constant
  deriving DecidableEq, Repr

/-- A module: its functions in module order, its global variables, the names
of its aliases and ifuncs, the counter `LastUnique` of its symbol table, from
which the suffix of a renamed symbol is taken, and whether its target triple
is an NVPTX one, which decides how that suffix is written.  Functions, global
variables, aliases and ifuncs share the one symbol table of the module. -/
structure Module where
  functions : List Function
  globals : List GlobalVariable
  aliases : List String
  lastUnique : Nat
  targetIsNVPTX : Bool
  deriving DecidableEq, Repr

/-- What `Module::getNamedValue` can return: the function at a position, the
global variable at a position, or an alias or ifunc. -/
inductive GlobalValue
  | function (i : Nat)
  | variable (i : Nat)
  | aliasOrIFunc
  deriving DecidableEq, Repr

/-- Apply `f` to the element at position `i`, if there is one. -/
def updateAt {α : Type} (l : List α) (i : Nat) (f : α → α) : List α :=
  match l, i with
  | [], _ => []
  | x :: xs, 0 => f x :: xs
  | x :: xs, i + 1 => x :: updateAt xs i f

/-- Position of the first element of a list of symbols that is called `name`. -/
def findNamed {α : Type} (nameOf : α → String) (l : List α) (name : String) : Option Nat :=
  match l with
  | [] => none
  | x :: rest =>
    if nameOf x = name then some 0 else (findNamed nameOf rest name).map (· + 1)

/-- Position of the first function called `name`. -/
def findFunction (fs : List Function) (name : String) : Option Nat :=
  findNamed Function.name fs name

/-- Position of the first global variable called `name`. -/
def findGlobal (gs : List GlobalVariable) (name : String) : Option Nat :=
  findNamed GlobalVariable.name gs name

/-- Mirrors `Module::getNamedValue`: the global value of the module that is
called `name`, of whatever kind.  A symbol table holds a name once; should the
lists hold it more than once, a function is found before a global variable
and a global variable before an alias. -/
def Module.getNamedValue (M : Module) (name : String) : Option GlobalValue :=
  match findFunction M.functions name with
  | some i => some (GlobalValue.function i)
  | none =>
    match findGlobal M.globals name with
    | some i => some (GlobalValue.variable i)
    | none => if name ∈ M.aliases then some GlobalValue.aliasOrIFunc else none

/-- Mirrors `Module::getOrInsertFunction(Name, Ty)`: the global value called
`name` if the module has one, of whatever kind and type; else a new
declaration of type `ty` added at the end of the function list.  Returns the
module and the callee. -/
def Module.getOrInsertFunction (M : Module) (name : String) (ty : FunctionType) :
    Module × GlobalValue :=
  match M.getNamedValue name with
  | some V => (M, V)
  | none =>
    ({ M with functions := M.functions ++
        [{ name := name, fnTy := ty, fnAttrs := [], paramAttrs := [], blocks := [] }] },
      GlobalValue.function M.functions.length)

/-- The names the symbol table of the module holds. -/
def Module.symbolNames (M : Module) : List String :=
  M.functions.map Function.name ++ M.globals.map GlobalVariable.name ++ M.aliases

/-- The name `ValueSymbolTable::makeUniqueName` tries for a global value when
`LastUnique` has become `k`: the base name, a dot unless the target of the
module is NVPTX, and the number. -/
def uniqueNameCandidate (isNVPTX : Bool) (name : String) (k : Nat) : String :=
  if isNVPTX then name ++ toString k else name ++ "." ++ toString k

/-- Mirrors the loop of `ValueSymbolTable::makeUniqueName` for a global value:
with `k` the value of `LastUnique`, try the candidates for `k+1`, `k+2`, …
until one is not among the names `taken`.  Returns the name and the new value
of `LastUnique`.  The loop is run for at most `fuel` taken candidates; as
different numbers give different candidates, `fuel = taken.length` is
enough: the candidate after that many taken ones is free
(`makeUniqueName_not_taken`). -/
def makeUniqueName (isNVPTX : Bool) (taken : List String) (name : String) (fuel k : Nat) :
    String × Nat :=
  match fuel with
  | 0 => (uniqueNameCandidate isNVPTX name (k + 1), k + 1)
  | fuel + 1 =>
    if uniqueNameCandidate isNVPTX name (k + 1) ∈ taken then
      makeUniqueName isNVPTX taken name fuel (k + 1)
    else (uniqueNameCandidate isNVPTX name (k + 1), k + 1)

/-- A new global variable enters the module, at the end of the list of
globals; when its name is taken in the symbol table of the module, the symbol
table gives it a unique name.  An unnamed one stays outside the symbol
table.  Returns the module and the position of the variable. -/
def Module.insertGlobalVariable (M : Module) (G : GlobalVariable) : Module × Nat :=
  if G.name ≠ "" ∧ G.name ∈ M.symbolNames then
    let r := makeUniqueName M.targetIsNVPTX M.symbolNames G.name M.symbolNames.length
      M.lastUnique
    ({ M with globals := M.globals ++ [{ G with name := r.1 }], lastUnique := r.2 },
      M.globals.length)
  else
    ({ M with globals := M.globals ++ [G] }, M.globals.length)

/-- Mirrors `Module::getOrInsertGlobal(Name, Ty)`: the global value called
`name` if it is a global variable (`dyn_cast_or_null<GlobalVariable>` of
`getNamedValue`); else a new external global variable without initializer,
created with that name.  Returns the module and the position of the
variable. -/
def Module.getOrInsertGlobal (M : Module) (name : String) (ty : Ty) : Module × Nat :=
  match M.getNamedValue name with
  | some (GlobalValue.variable i) => (M, i)
  | _ =>
    M.insertGlobalVariable
      { name := name, valueType := ty, isConstant := false,
        linkage := Linkage.ExternalLinkage, unnamedAddr := false,
        initializer := none }

/-- Mirrors `Function::addFnAttr`: attribute lists are sets. -/
def Function.addFnAttr (F : Function) (a : Attr) : Function :=
  if a ∈ F.fnAttrs then F else { F with fnAttrs := F.fnAttrs ++ [a] }

/-- Mirrors `Function::addParamAttr`. -/
def Function.addParamAttr (F : Function) (i : Nat) (a : Attr) : Function :=
  if (i, a) ∈ F.paramAttrs then F else { F with paramAttrs := F.paramAttrs ++ [(i, a)] }

/-- Mirrors `Function::setDoesNotThrow`. -/
def Function.setDoesNotThrow (F : Function) : Function :=
  F.addFnAttr Attr.NoUnwind

/-- Mirrors `GlobalVariable::setInitializer`. -/
def GlobalVariable.setInitializer (G : GlobalVariable) (c : Constant) : GlobalVariable :=
  { G with initializer := some c }

/-- Position of the first instruction of a block that is not a PHI node
(`BasicBlock::getFirstNonPHI`); the length of the block when there is none. -/
def getFirstNonPHI : BasicBlock → Nat
  | [] => 0
  | I :: rest => if I.isPHI then getFirstNonPHI rest + 1 else 0

/-- Mirrors `BasicBlock::getFirstInsertionPt`: the first non-PHI instruction,
or the one after it when that is an EH pad; the length of the block stands
for `end()`. -/
def getFirstInsertionPt (B : BasicBlock) : Nat :=
  let k := getFirstNonPHI B
  match B[k]? with
  | some I => if I.isEHPad then k + 1 else k
  | none => k

/-- Insert `I` before position `ip` of the block, as an `IRBuilder` whose
insertion point is the instruction at `ip` does. -/
def insertBefore (B : BasicBlock) (ip : Nat) (I : Instr) : BasicBlock :=
  B.take ip ++ I :: B.drop ip

/-- Mirrors `Function::getEntryBlock`: the first block. -/
def Function.getEntryBlock (F : Function) : BasicBlock :=
  F.blocks.headD []

/-- The function with its entry block replaced. -/
def Function.setEntryBlock (F : Function) (B : BasicBlock) : Function :=
  match F.blocks with
  | [] => F
  | _ :: rest => { F with blocks := B :: rest }

/-- Mirrors `IRBuilder::CreateGlobalStringPtr(Str)`: a new unnamed private
constant global holding `Str`, added at the end of the module's globals; the
result is its address. No instruction is created. -/
def CreateGlobalStringPtr (globals : List GlobalVariable) (str : String) :
    List GlobalVariable × Value :=
  (globals ++
    [{ name := "", valueType := (Constant.dataArrayString str).getType, isConstant := true,
       linkage := Linkage.PrivateLinkage, unnamedAddr := true,
       initializer := some (Constant.dataArrayString str) }],
   Value.global globals.length)

/-- Mirrors `IRBuilder::CreatePointerCast(V, DestTy)` on a constant `V`: `V`
itself when it already has the type, else a constant cast expression.  No
instruction is created. -/
def CreatePointerCast (v : Value) (destTy : Ty) : Value :=
  if v.getType = destTy then v else Value.castExpr v destTy

/-- Mirrors `IRBuilder::CreateCall(FunctionCallee, Args)`: an unnamed call of
function type `fnTy` to `callee`. -/
def CreateCall (fnTy : FunctionType) (callee : Value) (args : List Value) : Instr :=
  Instr.call none fnTy callee args

/-- The classification both passes apply to an instruction (`DynamicFP.cpp`
lines 66-72, `HelloWorld.cpp` lines 81-87): a `CallBase` for which
`getCalledFunction()` is null and whose called operand has pointer type
yields that operand, `CalledValue`; everything else yields nothing. -/
def indirectCallTarget (I : Instr) : Option Value :=
  match I with
  | .call _ fnTy calledOperand _ =>
    match getCalledFunction fnTy calledOperand with
    | some _ => none
    | none =>
      let CalledValue := calledOperand
      if CalledValue.getType.isPointerTy then some CalledValue else none
  | _ => none

/-- Block number `bi` of a function; empty when there is no such block. -/
def Function.blockAt (F : Function) (bi : Nat) : BasicBlock :=
  (F.blocks[bi]?).getD []

/-- The instructions of a function that are indirect calls in the sense of
the claims: call instructions with no statically known callee whose called
operand has pointer type. -/
def isIndirectCall (I : Instr) : Bool :=
  match I with
  | .call _ fnTy calledOperand _ =>
    (getCalledFunction fnTy calledOperand).isNone && calledOperand.getType.isPointerTy
  | _ => false

/-- Mirrors `CallBase::getCalledOperand`; nothing for other instructions. -/
def getCalledOperand? (I : Instr) : Option Value :=
  match I with
  | .call _ _ calledOperand _ => some calledOperand
  | _ => none

/-- The indirect call sites of a block, in block order. -/
def blockSites (B : BasicBlock) : List Instr :=
  B.filter isIndirectCall

/-- The indirect call sites of a function, in traversal order: block order,
then instruction order. -/
def callSites (F : Function) : List Instr :=
  F.blocks.flatMap blockSites

/-- Mirrors `llvm::PreservedAnalyses`, as far as the passes use it. -/
inductive PreservedAnalyses
  | all
  | none
  deriving DecidableEq, Repr

end LLVM

/-! ## The pass `DynamicFP` -/

namespace DynamicFP

open LLVM

/-- What the instruction loop of `runOnModule` works on: the module's globals
(new name strings are added to them), the function `F` being visited, and
the flag `InsertedAtLeastOnePrintf`. -/
structure PassState where
  globals : List GlobalVariable
  F : Function
  InsertedAtLeastOnePrintf : Bool
  deriving DecidableEq, Repr

/-- The values set up by steps 1 and 2 of `runOnModule` and used by every
injection: the type `PrintfArgTy`, the callee `Printf` with its function type
`PrintfTy`, and the global `PrintfFormatStrVar`. -/
structure Symbols where
  PrintfArgTy : Ty
  PrintfTy : FunctionType
  Printf : Value
  PrintfFormatStrVar : Value
  deriving DecidableEq, Repr

/-- The body of the innermost `if` of `runOnModule` (lines 73-93): with the
builder placed at the first insertion point of the entry block of `F`, create
the global string holding the name of `F`, cast the format string, insert the
call `printf(FormatStrPtr, FuncName, CalledValue)` and raise the flag. -/
def inject (S : Symbols) (st : PassState) (CalledValue : Value) : PassState :=
  let entry := st.F.getEntryBlock
  let ip := getFirstInsertionPt entry
  let (globals1, FuncName) := CreateGlobalStringPtr st.globals st.F.name
  let FormatStrPtr := CreatePointerCast S.PrintfFormatStrVar S.PrintfArgTy
  let call := CreateCall S.PrintfTy S.Printf [FormatStrPtr, FuncName, CalledValue]
  { globals := globals1,
    F := st.F.setEntryBlock (insertBefore entry ip call),
    InsertedAtLeastOnePrintf := true }

/-- Past a leading PHI node the first insertion point is that of the rest. -/
theorem getFirstInsertionPt_cons_phi (J : Instr) (rest : BasicBlock) (hJ : J.isPHI = true) :
    getFirstInsertionPt (J :: rest) = getFirstInsertionPt rest + 1 := by
  simp only [getFirstInsertionPt, getFirstNonPHI, hJ, if_true, List.getElem?_cons_succ]
  cases rest[getFirstNonPHI rest]? with
  | none => rfl
  | some I => by_cases hI : I.isEHPad = true <;> simp [hI]

/-- A block that starts with a non-PHI instruction has its first insertion
point at 0, or at 1 when that instruction is an EH pad. -/
theorem getFirstInsertionPt_cons_nonphi (J : Instr) (rest : BasicBlock)
    (hJ : J.isPHI = false) :
    getFirstInsertionPt (J :: rest) = if J.isEHPad then 1 else 0 := by
  simp [getFirstInsertionPt, getFirstNonPHI, hJ]

/-- An instruction the passes classify as an indirect call is neither a PHI
node nor an EH pad. -/
theorem indirectCallTarget_kind (I : Instr) (v : Value) (hv : indirectCallTarget I = some v) :
    I.isPHI = false ∧ I.isEHPad = false := by
  cases I <;> simp [indirectCallTarget] at hv
  exact ⟨rfl, rfl⟩

/-- A call instruction never stands before the first insertion point of its
block: what stands there is a PHI node or a leading EH pad. -/
theorem getFirstInsertionPt_le_of_target (B : BasicBlock) (ii : Nat) (I : Instr) (v : Value)
    (h : B[ii]? = some I) (hv : indirectCallTarget I = some v) :
    getFirstInsertionPt B ≤ ii := by
  obtain ⟨hphi, heh⟩ := indirectCallTarget_kind I v hv
  clear hv
  induction B generalizing ii with
  | nil => simp at h
  | cons J rest ih =>
    cases ii with
    | zero =>
      simp at h
      subst h
      rw [getFirstInsertionPt_cons_nonphi J rest hphi]
      simp [heh]
    | succ j =>
      simp at h
      have := ih j h
      by_cases hJ : J.isPHI = true
      · rw [getFirstInsertionPt_cons_phi J rest hJ]; omega
      · rw [getFirstInsertionPt_cons_nonphi J rest (by simpa using hJ)]
        split <;> omega

/-- The entry block after an injection is one instruction longer; no other
block changes. -/
theorem blockAt_inject (S : Symbols) (st : PassState) (v : Value) (bi : Nat) :
    (inject S st v).F.blockAt bi =
      if bi = 0 ∧ st.F.blocks ≠ [] then
        insertBefore st.F.getEntryBlock (getFirstInsertionPt st.F.getEntryBlock)
          (CreateCall S.PrintfTy S.Printf
            [CreatePointerCast S.PrintfFormatStrVar S.PrintfArgTy,
             Value.global st.globals.length, v])
      else st.F.blockAt bi := by
  unfold inject Function.setEntryBlock Function.blockAt CreateGlobalStringPtr
  cases hb : st.F.blocks with
  | nil => simp [hb]
  | cons E rest =>
    cases bi with
    | zero => simp [Function.getEntryBlock, hb]
    | succ k => simp [hb]

/-- The entry block is block number 0. -/
theorem getEntryBlock_eq_blockAt (F : Function) : F.getEntryBlock = F.blockAt 0 := by
  unfold Function.getEntryBlock Function.blockAt
  cases F.blocks <;> simp

/-- Inserting one instruction makes the block one longer. -/
theorem length_insertBefore (B : BasicBlock) (ip : Nat) (I : Instr) :
    (insertBefore B ip I).length = B.length + 1 := by
  simp [insertBefore]
  omega

/-- What makes the instruction loop end: after visiting the instruction at
`ii`, with or without an injection, fewer instructions are left after the
cursor. -/
theorem inject_measure (S : Symbols) (st : PassState) (bi ii : Nat) (I : Instr) (v : Value)
    (h : (st.F.blockAt bi)[ii]? = some I) (hv : indirectCallTarget I = some v) :
    ((inject S st v).F.blockAt bi).length -
        ((if bi = 0 ∧ getFirstInsertionPt st.F.getEntryBlock ≤ ii then ii + 1 else ii) + 1) <
      (st.F.blockAt bi).length - ii := by
  have hlt : ii < (st.F.blockAt bi).length := by
    rcases List.getElem?_eq_some.1 h with ⟨hlt, _⟩
    exact hlt
  rw [blockAt_inject]
  by_cases hb : bi = 0
  · subst hb
    have hne : st.F.blocks ≠ [] := by
      intro hnil
      simp [Function.blockAt, hnil] at hlt
    have hle := getFirstInsertionPt_le_of_target (st.F.blockAt 0) ii I v h hv
    rw [getEntryBlock_eq_blockAt]
    simp only [hne, ne_eq, not_false_eq_true, and_self, if_true, hle, true_and,
      length_insertBefore]
    omega
  · simp only [hb, false_and, if_false]
    omega

set_option linter.unusedVariables false in
/-- The innermost loop of `runOnModule` (`for (auto &I : BB)`, lines 65-98)
on the live function: `bi` is the block being walked, `ii` the position of
the iterator in it.  An instruction classified as an indirect call triggers
`inject`; the iterator keeps designating the same instruction, so when the
new call lands in the block being walked at or before the iterator, the
iterator's position moves by one. -/
def visitInsts (S : Symbols) (st : PassState) (bi ii : Nat) : PassState :=
  match h : (st.F.blockAt bi)[ii]? with
  | none => st
  | some I =>
    match hv : indirectCallTarget I with
    | none => visitInsts S st bi (ii + 1)
    | some CalledValue =>
      visitInsts S (inject S st CalledValue) bi
        ((if bi = 0 ∧ getFirstInsertionPt st.F.getEntryBlock ≤ ii then ii + 1 else ii) + 1)
termination_by (st.F.blockAt bi).length - ii
decreasing_by
  · have hlt : ii < (st.F.blockAt bi).length := by
      rcases List.getElem?_eq_some.1 h with ⟨hlt, _⟩
      exact hlt
    omega
  · exact inject_measure S st bi ii I CalledValue h hv

/-- The called operands of the instructions of a block that the passes
classify as indirect calls, in block order. -/
def blockTargets (B : BasicBlock) : List Value :=
  B.filterMap indirectCallTarget

theorem drop_insertBefore_succ (B : BasicBlock) (ip ii : Nat) (I : Instr)
    (hip : ip ≤ ii) (hii : ii < B.length) :
    (insertBefore B ip I).drop (ii + 1 + 1) = B.drop (ii + 1) := by
  unfold insertBefore
  have h1 : (B.take ip).length = ip := by simp; omega
  rw [List.drop_append_eq_append_drop]
  rw [h1]
  have h2 : List.drop (ii + 1 + 1) (List.take ip B) = [] := by
    apply List.drop_eq_nil_of_le; omega
  rw [h2]
  have h3 : ii + 1 + 1 - ip = (ii - ip) + 1 + 1 := by omega
  rw [h3]
  simp only [List.nil_append, List.drop_succ_cons, List.drop_drop]
  congr 1
  omega

/-- The instruction loop on the live function does what injecting for each
indirect call of the block from the cursor on does, one after the other. -/
theorem visitInsts_eq (S : Symbols) (n : Nat) :
    ∀ (st : PassState) (bi ii : Nat), (st.F.blockAt bi).length - ii = n →
      visitInsts S st bi ii =
        (blockTargets ((st.F.blockAt bi).drop ii)).foldl (inject S) st := by
  induction n using Nat.strong_induction_on with
  | _ n ih =>
    intro st bi ii hn
    unfold visitInsts
    split
    · rename_i hnone
      have : (st.F.blockAt bi).length ≤ ii := by
        simpa using hnone
      simp [List.drop_eq_nil_of_le this, blockTargets]
    · rename_i I hsome
      have hlt : ii < (st.F.blockAt bi).length := by
        rcases List.getElem?_eq_some.1 hsome with ⟨hlt, _⟩
        exact hlt
      have hdrop : (st.F.blockAt bi).drop ii = I :: (st.F.blockAt bi).drop (ii + 1) := by
        rw [List.drop_eq_getElem_cons hlt]
        congr 1
        rcases List.getElem?_eq_some.1 hsome with ⟨_, he⟩
        exact he
      split
      · rename_i hv
        rw [ih ((st.F.blockAt bi).length - (ii + 1)) (by omega) st bi (ii + 1) rfl]
        rw [hdrop]
        simp [blockTargets, hv]
      · rename_i v hv
        have hm := inject_measure S st bi ii I v hsome hv
        rw [ih _ (by rw [← hn]; exact hm) (inject S st v) bi _ rfl]
        rw [hdrop]
        have hkeep : ((inject S st v).F.blockAt bi).drop
            ((if bi = 0 ∧ getFirstInsertionPt st.F.getEntryBlock ≤ ii then ii + 1 else ii) + 1)
              = (st.F.blockAt bi).drop (ii + 1) := by
          rw [blockAt_inject]
          by_cases hb : bi = 0
          · subst hb
            have hne : st.F.blocks ≠ [] := by
              intro hnil
              simp [Function.blockAt, hnil] at hlt
            have hle := getFirstInsertionPt_le_of_target (st.F.blockAt 0) ii I v hsome hv
            rw [getEntryBlock_eq_blockAt]
            simp only [hne, ne_eq, not_false_eq_true, and_self, if_true, hle, true_and]
            exact drop_insertBefore_succ _ _ _ _ hle hlt
          · simp only [hb, false_and, if_false]
        rw [hkeep]
        simp [blockTargets, hv]

/-- An injection leaves every block but the entry block as it is. -/
theorem inject_blocks_tail (S : Symbols) (st : PassState) (v : Value) :
    (inject S st v).F.blocks.tail = st.F.blocks.tail ∧
      (inject S st v).F.blocks.length = st.F.blocks.length := by
  unfold inject Function.setEntryBlock
  cases hb : st.F.blocks <;> simp [hb]

/-- A run of injections leaves every block but the entry block as it is. -/
theorem foldl_inject_blocks_tail (S : Symbols) (vs : List Value) :
    ∀ st : PassState,
      (vs.foldl (inject S) st).F.blocks.tail = st.F.blocks.tail ∧
        (vs.foldl (inject S) st).F.blocks.length = st.F.blocks.length := by
  induction vs with
  | nil => intro st; simp
  | cons v rest ih =>
    intro st
    simp only [List.foldl_cons]
    obtain ⟨h1, h2⟩ := ih (inject S st v)
    obtain ⟨h3, h4⟩ := inject_blocks_tail S st v
    exact ⟨h1.trans h3, h2.trans h4⟩

/-- The instruction loop does not change the number of blocks. -/
theorem visitInsts_blocks_length (S : Symbols) (st : PassState) (bi ii : Nat) :
    (visitInsts S st bi ii).F.blocks.length = st.F.blocks.length := by
  rw [visitInsts_eq S _ st bi ii rfl]
  exact (foldl_inject_blocks_tail S _ st).2

/-- The block loop of `runOnModule` (`for (auto &BB : F)`, line 64) on the
live function, from block number `bi` on. -/
def visitBlocks (S : Symbols) (st : PassState) (bi : Nat) : PassState :=
  if bi < st.F.blocks.length then
    visitBlocks S (visitInsts S st bi 0) (bi + 1)
  else st
termination_by st.F.blocks.length - bi
decreasing_by
  rw [visitInsts_blocks_length]
  omega

/-- The function loop of `runOnModule` (`for (auto &F : M)`, line 62): each
function is visited in module order; a visit changes that function and the
module's globals only. Returns the functions, the globals and the flag. -/
def visitFunctions (S : Symbols) (fs : List Function) (globals : List GlobalVariable)
    (flag : Bool) : List Function × List GlobalVariable × Bool :=
  match fs with
  | [] => ([], globals, flag)
  | F :: rest =>
    let st := visitBlocks S { globals := globals, F := F, InsertedAtLeastOnePrintf := flag } 0
    let r := visitFunctions S rest st.globals st.InsertedAtLeastOnePrintf
    (st.F :: r.1, r.2.1, r.2.2)

/-- The text of the format string of line 54. -/
def formatString : String :=
  "(fp-trance) Called from: %s\n(fp-trace)   Called: %i\n"

/-- Mirrors `DynamicFP::runOnModule` (lines 24-105): the module after the run
and the returned flag; `none` when the run ends in the dereference of a null
pointer, which happens at line 46 when `printf` is the name of a global value
that is not a function. -/
def runOnModule (M : Module) : Option (Module × Bool) :=
  let InsertedAtLeastOnePrintf := false
  let PrintfArgTy := Ty.ptr
  -- STEP 1: the declaration of printf
  let PrintfTy : FunctionType :=
    { ret := Ty.int 32, params := [PrintfArgTy], isVarArg := true }
  let (M1, Printf) := M.getOrInsertFunction "printf" PrintfTy
  -- `dyn_cast<Function>(Printf.getCallee())`
  match Printf with
  | GlobalValue.function PrintfF =>
    let M2 : Module := { M1 with functions := updateAt M1.functions PrintfF (fun F =>
      ((F.setDoesNotThrow).addParamAttr 0 Attr.NoCapture).addParamAttr 0 Attr.ReadOnly) }
    let PrintfCallee : Value :=
      Value.func "printf" ((M2.functions[PrintfF]?).elim PrintfTy (fun F => F.fnTy))
    -- STEP 2: the global variable that holds the format string
    let PrintfFormatStr := Constant.dataArrayString formatString
    let (M3, PrintfFormatStrVar) :=
      M2.getOrInsertGlobal "PrintfFormatStr" PrintfFormatStr.getType
    let M4 : Module := { M3 with globals := updateAt M3.globals PrintfFormatStrVar (fun G =>
      G.setInitializer PrintfFormatStr) }
    -- STEP 3: the loop over the functions
    let S : Symbols :=
      { PrintfArgTy := PrintfArgTy, PrintfTy := PrintfTy, Printf := PrintfCallee,
        PrintfFormatStrVar := Value.global PrintfFormatStrVar }
    let r := visitFunctions S M4.functions M4.globals InsertedAtLeastOnePrintf
    some ({ M4 with functions := r.1, globals := r.2.1 }, r.2.2)
  | _ =>
    -- `PrintfF` is null and `PrintfF->setDoesNotThrow()` dereferences it
    none

/-- Mirrors `DynamicFP::run` (lines 107-113). -/
def run (M : Module) : Option (Module × PreservedAnalyses) :=
  match runOnModule M with
  | none => none
  | some r =>
    let Changed := r.2
    some (r.1, if Changed then PreservedAnalyses.none else PreservedAnalyses.all)

/-! ### What the theorems about `DynamicFP` are stated with -/

/-- The number a list of decimal digits, most significant first, stands for;
it tells the names apart that `makeUniqueName` tries one after the other. -/
def decodeDigits (ds : List Char) : Nat :=
  ds.foldl (fun a c => a * 10 + (c.toNat - 48)) 0

/-- The called operands of the indirect calls of a function, in traversal
order: block order, then instruction order. -/
def functionTargets (F : Function) : List Value :=
  F.blocks.flatMap blockTargets

/-- The call that `inject` creates for the target `v` when the name string it
creates becomes global number `g`. -/
def injectedCall (S : Symbols) (g : Nat) (v : Value) : Instr :=
  CreateCall S.PrintfTy S.Printf
    [CreatePointerCast S.PrintfFormatStrVar S.PrintfArgTy, Value.global g, v]

/-- The calls created for the targets `vs`, in the order of `vs`, when the
first name string created becomes global number `g`. -/
def injectedCalls (S : Symbols) (g : Nat) (vs : List Value) : List Instr :=
  match vs with
  | [] => []
  | v :: rest => injectedCall S g v :: injectedCalls S (g + 1) rest

/-- The global that `CreateGlobalStringPtr` creates for the string `str`. -/
def nameString (str : String) : GlobalVariable :=
  { name := "", valueType := (Constant.dataArrayString str).getType, isConstant := true,
    linkage := Linkage.PrivateLinkage, unnamedAddr := true,
    initializer := some (Constant.dataArrayString str) }

/-- The function with the instructions `cs` standing at the first insertion
point of its entry block, the last of `cs` first. -/
def withInjected (F : Function) (cs : List Instr) : Function :=
  F.setEntryBlock
    (F.getEntryBlock.take (getFirstInsertionPt F.getEntryBlock) ++ cs.reverse ++
      F.getEntryBlock.drop (getFirstInsertionPt F.getEntryBlock))

/-- The functions of a module after the function loop: each with the calls
created for its own indirect calls; `g` is the number of globals before. -/
def instrumented (S : Symbols) (fs : List Function) (g : Nat) : List Function :=
  match fs with
  | [] => []
  | F :: rest =>
    withInjected F (injectedCalls S g (functionTargets F)) ::
      instrumented S rest (g + (functionTargets F).length)

/-- The name strings the function loop creates, in creation order. -/
def nameStrings (fs : List Function) : List GlobalVariable :=
  fs.flatMap (fun F => List.replicate (functionTargets F).length (nameString F.name))

/-- The function type `PrintfTy` of line 37: `i32 (i8*, ...)`. -/
def PrintfTy : FunctionType :=
  { ret := Ty.int 32, params := [Ty.ptr], isVarArg := true }

/-- The attributes lines 46-48 set on `printf`. -/
def setPrintfAttributes (F : Function) : Function :=
  ((F.setDoesNotThrow).addParamAttr 0 Attr.NoCapture).addParamAttr 0 Attr.ReadOnly

/-- The declaration `getOrInsertFunction` creates when the module has no `printf`. -/
def printfDeclaration : Function :=
  { name := "printf", fnTy := PrintfTy, fnAttrs := [], paramAttrs := [], blocks := [] }

/-- The global `getOrInsertGlobal` creates when the module has no `PrintfFormatStr`. -/
def formatGlobal : GlobalVariable :=
  { name := "PrintfFormatStr", valueType := (Constant.dataArrayString formatString).getType,
    isConstant := false, linkage := Linkage.ExternalLinkage, unnamedAddr := false,
    initializer := none }

/-- Position of `printf` in the module after step 1, when `printf` is the name
of a function of the module or of no global value. -/
def printfIndex (M : Module) : Nat :=
  (findFunction M.functions "printf").getD M.functions.length

/-- The module after step 1 (lines 37-48), when `printf` is the name of a
function of the module or of no global value: `printf` is declared and has its
attributes. -/
def afterPrintf (M : Module) : Module :=
  let fs :=
    M.functions ++
      if (findFunction M.functions "printf").isSome then [] else [printfDeclaration]
  { M with functions := updateAt fs (printfIndex M) setPrintfAttributes }

/-- Position of the global that line 57 returns, in the module after step 2. -/
def formatIndex (M : Module) : Nat :=
  ((afterPrintf M).getOrInsertGlobal "PrintfFormatStr"
    (Constant.dataArrayString formatString).getType).2

/-- The module after steps 1 and 2 (lines 37-58), when `printf` is the name of
a function of the module or of no global value. -/
def afterSetup (M : Module) : Module :=
  let M3 := ((afterPrintf M).getOrInsertGlobal "PrintfFormatStr"
    (Constant.dataArrayString formatString).getType).1
  { M3 with globals := updateAt M3.globals (formatIndex M) (fun G =>
      G.setInitializer (Constant.dataArrayString formatString)) }

/-- The values `runOnModule` hands to every injection. -/
def symbolsOf (M : Module) : Symbols :=
  { PrintfArgTy := Ty.ptr,
    PrintfTy := PrintfTy,
    Printf := Value.func "printf"
      (((afterPrintf M).functions[printfIndex M]?).elim PrintfTy (fun F => F.fnTy)),
    PrintfFormatStrVar := Value.global (formatIndex M) }

/-- What `runOnModule` returns when `printf` is the name of a function of the
module or of no global value: steps 1 and 2, then every function with the
calls for its indirect call sites, and the name strings created for them. -/
def runResult (M : Module) : Module × Bool :=
  ({ afterSetup M with
      functions := instrumented (symbolsOf M) (afterSetup M).functions
        (afterSetup M).globals.length,
      globals := (afterSetup M).globals ++ nameStrings (afterSetup M).functions },
   (afterSetup M).functions.any (fun F => !(functionTargets F).isEmpty))

/-- Number of name strings created before the function at position `i` is
visited. -/
def stringsBefore (fs : List Function) (i : Nat) : Nat :=
  ((fs.take i).flatMap functionTargets).length

/-- A function `f` that calls through its two pointer arguments, first
through argument 0, then through argument 1. -/
def twoSitesFunction : Function :=
  { name := "f",
    fnTy := { ret := Ty.void, params := [Ty.ptr, Ty.ptr], isVarArg := false },
    fnAttrs := [], paramAttrs := [],
    blocks :=
      [[Instr.call none { ret := Ty.void, params := [], isVarArg := false }
          (Value.arg 0 Ty.ptr) [],
        Instr.call none { ret := Ty.void, params := [], isVarArg := false }
          (Value.arg 1 Ty.ptr) [],
        Instr.other none "ret" []]] }

/-- The module whose one function is `twoSitesFunction`. -/
def twoSitesModule : Module :=
  { functions := [twoSitesFunction], globals := [], aliases := [], lastUnique := 0,
    targetIsNVPTX := false }

/-- The module without functions and globals. -/
def emptyModule : Module :=
  { functions := [], globals := [], aliases := [], lastUnique := 0,
    targetIsNVPTX := false }

/-- Whether every operand of the instructions `insts` that is the result of
an instruction is the result of an instruction standing earlier: in
`defined`, the value numbers defined so far, or earlier in `insts`. -/
def operandsDefined (defined : List Nat) (insts : List Instr) : Bool :=
  match insts with
  | [] => true
  | I :: rest =>
    I.operands.all (fun v =>
      match v with
      | .inst id _ => decide (id ∈ defined)
      | _ => true) &&
    operandsDefined (defined ++ I.result?.toList) rest

/-- Whether in the function, read in block order and instruction order, every
operand that is the result of an instruction is defined at an earlier
position than its use. -/
def definedBeforeUse (F : Function) : Bool :=
  operandsDefined [] F.blocks.flatten

/-- A function `g` that loads a function pointer from its argument and calls
through the loaded value: `%1 = load ptr, ptr %arg0; call void %1(); ret`. -/
def loadCallFunction : Function :=
  { name := "g",
    fnTy := { ret := Ty.void, params := [Ty.ptr], isVarArg := false },
    fnAttrs := [], paramAttrs := [],
    blocks :=
      [[Instr.other (some 1) "load" [Value.arg 0 Ty.ptr],
        Instr.call none { ret := Ty.void, params := [], isVarArg := false }
          (Value.inst 1 Ty.ptr) [],
        Instr.other none "ret" []]] }

/-- The module whose one function is `loadCallFunction`. -/
def loadCallModule : Module :=
  { functions := [loadCallFunction], globals := [], aliases := [], lastUnique := 0,
    targetIsNVPTX := false }

/-- A module whose one symbol is a global variable called `printf`:
`@printf = global i32 0`. -/
def printfVariableModule : Module :=
  { functions := [],
    globals :=
      [{ name := "printf", valueType := Ty.int 32, isConstant := false,
         linkage := Linkage.ExternalLinkage, unnamedAddr := false,
         initializer := some (Constant.otherConstant (Ty.int 32) 0) }],
    aliases := [], lastUnique := 0,
    targetIsNVPTX := false }

/-- A module whose one symbol is a function called `PrintfFormatStr`:
`declare void @PrintfFormatStr()`. -/
def formatFunctionModule : Module :=
  { functions :=
      [{ name := "PrintfFormatStr",
         fnTy := { ret := Ty.void, params := [], isVarArg := false },
         fnAttrs := [], paramAttrs := [], blocks := [] }],
    globals := [], aliases := [], lastUnique := 0,
    targetIsNVPTX := false }

end DynamicFP

/-! ## The pass `HelloWorld` -/

namespace HelloWorld

open LLVM

/-- How `raw_ostream` renders what the pass prints: `valuePtr` the pointer
`CalledValue` (line 56 and line 91), `instPtr` the pointer `&I` (line 60),
`instText` the instruction `I` itself (line 90).  The renderings are
parameters of the model. -/
structure Renderer where
  valuePtr : Value → String
  instPtr : Instr → String
  instText : Instr → String

/-- The two streams the pass writes to: the open file `csvFile` (its content)
and the diagnostic stream `errs()`. -/
structure Streams where
  csvFile : String
  errs : String
  deriving DecidableEq, Repr

/-- The header row of line 43. -/
def headerRow : String :=
  "Function Name, Function Pointer Address, Instruction Address\n"

/-- Mirrors `writeCSVHeader` (lines 42-44). -/
def writeCSVHeader (csvFile : String) : String :=
  csvFile ++ headerRow

/-- Mirrors `writeCSVLine` (lines 47-49). -/
def writeCSVLine (csvFile functionName address instruction : String) : String :=
  csvFile ++ (functionName ++ "," ++ address ++ "," ++ instruction ++ "\n")

/-- Mirrors `printFunctionPointerAddress` (lines 52-64). -/
def printFunctionPointerAddress (R : Renderer) (CalledValue : Value) (csvFile : String)
    (F : Function) (I : Instr) : String :=
  let addrStr := R.valuePtr CalledValue
  let insStr := R.instPtr I
  writeCSVLine csvFile F.name addrStr insStr

/-- The body of the instruction loop of `run` (lines 81-95). -/
def visitInstruction (R : Renderer) (F : Function) (out : Streams) (I : Instr) : Streams :=
  match I with
  | .call _ fnTy calledOperand _ =>
    match getCalledFunction fnTy calledOperand with
    | some _ => out
    | none =>
      let CalledValue := calledOperand
      if CalledValue.getType.isPointerTy then
        { csvFile := printFunctionPointerAddress R CalledValue out.csvFile F I,
          errs := out.errs ++
            ("Function pointer used in function: " ++ F.name ++ "\n" ++
             "Instruction: " ++ R.instText I ++ "\n" ++
             "Function pointed to: " ++ R.valuePtr CalledValue ++ "\n") }
      else out
  | _ => out

/-- Mirrors `HelloWorld::run` (lines 69-101).  `file` is the content of
`function_pointers.csv` before the run, `none` when there is no such file;
the result is the content of the file after `close`, the diagnostic stream
and the returned `PreservedAnalyses`. -/
def run (R : Renderer) (F : Function) (file : Option String) (errs : String) :
    Option String × String × PreservedAnalyses :=
  let csvFile :=
    if F.name = "main" then
      -- open with `trunc`, then the header
      writeCSVHeader ""
    else
      -- open with `app`
      file.getD ""
  let out := F.blocks.foldl (fun out BB => BB.foldl (visitInstruction R F) out)
    { csvFile := csvFile, errs := errs }
  (some out.csvFile, out.errs, PreservedAnalyses.all)

/-- Mirrors `Function::isDeclaration`. -/
def isDeclaration (F : Function) : Bool :=
  F.blocks.isEmpty

/-- The pass as registered (line 115): `createModuleToFunctionPassAdaptor`
runs `run` on the functions of the module that are not declarations, one
after another in module order. -/
def runOnFunctions (R : Renderer) (fs : List Function) (file : Option String)
    (errs : String) : Option String × String :=
  match fs with
  | [] => (file, errs)
  | F :: rest =>
    if isDeclaration F then runOnFunctions R rest file errs
    else
      let r := run R F file errs
      runOnFunctions R rest r.1 r.2.1

/-! ### What the theorems about `HelloWorld` are stated with -/

/-- The row written for the indirect call site `site` of `F`. -/
def csvRow (R : Renderer) (F : Function) (site : Instr) : Option String :=
  (getCalledOperand? site).map (fun v =>
    F.name ++ "," ++ R.valuePtr v ++ "," ++ R.instPtr site ++ "\n")

/-- The rows for the indirect call sites of a block, in block order. -/
def blockRows (R : Renderer) (F : Function) (B : BasicBlock) : List String :=
  (blockSites B).filterMap (csvRow R F)

/-- The rows for the indirect call sites of `F`, in traversal order. -/
def csvRows (R : Renderer) (F : Function) : List String :=
  F.blocks.flatMap (blockRows R F)

/-- The strings of a list one after the other. -/
def concat (rows : List String) : String :=
  match rows with
  | [] => ""
  | r :: rest => r ++ concat rest

/-- The functions of a list that the adaptor runs the pass on. -/
def definedFunctions (fs : List Function) : List Function :=
  fs.filter (fun F => !isDeclaration F)

/-- A function called `n` with 2 indirect call sites: it calls through its
argument 0, then through its argument 1. -/
def callerTwice (n : String) : Function :=
  { name := n,
    fnTy := { ret := Ty.void, params := [Ty.ptr, Ty.ptr], isVarArg := false },
    fnAttrs := [], paramAttrs := [],
    blocks :=
      [[Instr.call none { ret := Ty.void, params := [], isVarArg := false }
          (Value.arg 0 Ty.ptr) [],
        Instr.call none { ret := Ty.void, params := [], isVarArg := false }
          (Value.arg 1 Ty.ptr) [],
        Instr.other none "ret" []]] }

/-- A function called `n` without indirect call site: it only returns. -/
def returner (n : String) : Function :=
  { name := n,
    fnTy := { ret := Ty.void, params := [], isVarArg := false },
    fnAttrs := [], paramAttrs := [],
    blocks := [[Instr.other none "ret" []]] }

/-- A function called `n` with 1 indirect call site: it calls through its
argument 0. -/
def callerOnce (n : String) : Function :=
  { name := n,
    fnTy := { ret := Ty.void, params := [Ty.ptr], isVarArg := false },
    fnAttrs := [], paramAttrs := [],
    blocks :=
      [[Instr.call none { ret := Ty.void, params := [], isVarArg := false }
          (Value.arg 0 Ty.ptr) [],
        Instr.other none "ret" []]] }

/-- Three functions with 2, 0 and 1 indirect call sites, called `n1`, `n2`
and `n3`. -/
def threeFunctions (n1 n2 n3 : String) : List Function :=
  [callerTwice n1, returner n2, callerOnce n3]

/-- A renderer for the examples: argument 0 is shown as `a0`, argument 1 as
`a1`, every instruction as `i`. -/
def exampleRenderer : Renderer :=
  { valuePtr := fun v =>
      match v with
      | .arg 0 _ => "a0"
      | .arg 1 _ => "a1"
      | _ => "v",
    instPtr := fun _ => "i",
    instText := fun _ => "t" }

end HelloWorld

/-! ## Theorems about `DynamicFP` -/

namespace DynamicFP

open LLVM

/-! ### The loops in closed form -/

/-- The first insertion point lies within the block or at its end. -/
theorem getFirstInsertionPt_le_length (B : BasicBlock) :
    getFirstInsertionPt B ≤ B.length := by
  induction B with
  | nil => simp [getFirstInsertionPt, getFirstNonPHI]
  | cons J rest ih =>
    by_cases hJ : J.isPHI = true
    · rw [getFirstInsertionPt_cons_phi J rest hJ]; simp; exact ih
    · rw [getFirstInsertionPt_cons_nonphi J rest (by simpa using hJ)]
      split <;> simp

theorem getFirstInsertionPt_insertBefore (B : BasicBlock) (c : Instr)
    (hphi : c.isPHI = false) (heh : c.isEHPad = false) :
    getFirstInsertionPt (insertBefore B (getFirstInsertionPt B) c) = getFirstInsertionPt B := by
  induction B with
  | nil =>
    simp [insertBefore, getFirstInsertionPt, getFirstNonPHI, hphi, heh]
  | cons J rest ih =>
    by_cases hJ : J.isPHI = true
    · rw [getFirstInsertionPt_cons_phi J rest hJ]
      have : insertBefore (J :: rest) (getFirstInsertionPt rest + 1) c =
          J :: insertBefore rest (getFirstInsertionPt rest) c := by
        simp [insertBefore]
      rw [this, getFirstInsertionPt_cons_phi _ _ hJ, ih]
    · have hJ2 : J.isPHI = false := by simpa using hJ
      rw [getFirstInsertionPt_cons_nonphi J rest hJ2]
      by_cases hE : J.isEHPad = true
      · simp only [hE, if_true]
        have : insertBefore (J :: rest) 1 c = J :: c :: rest := by simp [insertBefore]
        rw [this, getFirstInsertionPt_cons_nonphi _ _ hJ2]
        simp [hE]
      · simp only [hE]
        have : insertBefore (J :: rest) 0 c = c :: J :: rest := by simp [insertBefore]
        simp only [Bool.false_eq_true, if_false]
        rw [this, getFirstInsertionPt_cons_nonphi _ _ hphi]
        simp [heh]

theorem injectedCall_kind (S : Symbols) (g : Nat) (v : Value) :
    (injectedCall S g v).isPHI = false ∧ (injectedCall S g v).isEHPad = false :=
  ⟨rfl, rfl⟩

/-- One injection puts the new call at the first insertion point. -/
theorem inject_eq (S : Symbols) (st : PassState) (v : Value) :
    inject S st v =
      { globals := st.globals ++ [nameString st.F.name],
        F := withInjected st.F [injectedCall S st.globals.length v],
        InsertedAtLeastOnePrintf := true } := by
  simp [inject, withInjected, injectedCall, CreateGlobalStringPtr, nameString, insertBefore]

theorem withInjected_name (F : Function) (cs : List Instr) :
    (withInjected F cs).name = F.name := by
  unfold withInjected Function.setEntryBlock
  cases F.blocks <;> rfl

/-- Injecting `c` and then the instructions `cs` is injecting `c :: cs`. -/
theorem withInjected_cons (F : Function) (c : Instr) (cs : List Instr)
    (hphi : c.isPHI = false) (heh : c.isEHPad = false) :
    withInjected (withInjected F [c]) cs = withInjected F (c :: cs) := by
  cases hb : F.blocks with
  | nil => simp [withInjected, Function.setEntryBlock, hb]
  | cons E rest =>
    have hE : F.getEntryBlock = E := by simp [Function.getEntryBlock, hb]
    have h1 : withInjected F [c] =
        { F with blocks := insertBefore E (getFirstInsertionPt E) c :: rest } := by
      simp [withInjected, Function.setEntryBlock, hb, hE, insertBefore]
    rw [h1]
    have hp := getFirstInsertionPt_insertBefore E c hphi heh
    have hle := getFirstInsertionPt_le_length E
    simp only [withInjected, Function.setEntryBlock, Function.getEntryBlock, hb,
      List.headD_cons, hp]
    congr 2
    have ht : List.take (getFirstInsertionPt E) (insertBefore E (getFirstInsertionPt E) c) =
        List.take (getFirstInsertionPt E) E := by
      unfold insertBefore
      rw [List.take_append_of_le_length (by simp; omega)]
      simp
    have hd : List.drop (getFirstInsertionPt E) (insertBefore E (getFirstInsertionPt E) c) =
        c :: List.drop (getFirstInsertionPt E) E := by
      unfold insertBefore
      rw [List.drop_append_of_le_length (by simp; omega)]
      simp
    rw [ht, hd]
    simp

/-- A run of injections, in closed form: one name string per target is added
to the globals, the created calls stand at the first insertion point of the
entry block, the call created last first, and the flag is raised if there was
a target. -/
theorem foldl_inject_eq (S : Symbols) (vs : List Value) :
    ∀ st : PassState,
      vs.foldl (inject S) st =
        { globals := st.globals ++ List.replicate vs.length (nameString st.F.name),
          F := withInjected st.F (injectedCalls S st.globals.length vs),
          InsertedAtLeastOnePrintf := st.InsertedAtLeastOnePrintf || !vs.isEmpty } := by
  induction vs with
  | nil =>
    intro st
    have : withInjected st.F [] = st.F := by
      unfold withInjected Function.setEntryBlock Function.getEntryBlock
      cases hb : st.F.blocks <;> simp [hb]
      cases hF : st.F
      simp_all
    simp [injectedCalls, this]
  | cons v rest ih =>
    intro st
    simp only [List.foldl_cons]
    rw [ih, inject_eq]
    simp only [withInjected_name, List.length_append, List.length_cons, List.length_nil,
      injectedCalls, List.isEmpty_cons, Bool.not_false, Bool.or_true, Bool.true_or,
      List.append_assoc, List.singleton_append]
    rw [withInjected_cons _ _ _ (injectedCall_kind S _ v).1 (injectedCall_kind S _ v).2]
    simp [List.replicate_succ]

/-- The block loop on the live function does what injecting for each
indirect call of the blocks from `bi` on does, in traversal order. -/
theorem visitBlocks_eq (S : Symbols) (n : Nat) :
    ∀ (st : PassState) (bi : Nat), st.F.blocks.length - bi = n →
      visitBlocks S st bi =
        ((st.F.blocks.drop bi).flatMap blockTargets).foldl (inject S) st := by
  induction n using Nat.strong_induction_on with
  | _ n ih =>
    intro st bi hn
    unfold visitBlocks
    split
    · rename_i hlt
      have hlen := visitInsts_blocks_length S st bi 0
      rw [ih ((visitInsts S st bi 0).F.blocks.length - (bi + 1)) (by omega) _ _ rfl]
      rw [visitInsts_eq S _ st bi 0 rfl]
      have htail := (foldl_inject_blocks_tail S
        (blockTargets ((st.F.blockAt bi).drop 0)) st).1
      have hdrop : List.drop (bi + 1)
          (List.foldl (inject S) st (blockTargets ((st.F.blockAt bi).drop 0))).F.blocks =
          List.drop (bi + 1) st.F.blocks := by
        rw [← List.drop_tail, ← List.drop_tail, htail]
      rw [hdrop]
      have hcons : List.drop bi st.F.blocks = st.F.blockAt bi :: List.drop (bi + 1) st.F.blocks := by
        rw [List.drop_eq_getElem_cons hlt]
        simp [Function.blockAt, hlt]
      rw [hcons]
      simp [List.foldl_append]
    · rename_i hge
      rw [List.drop_eq_nil_of_le (by omega)]
      simp

/-- Visiting one function, in closed form. -/
theorem visitBlocks_zero (S : Symbols) (G : List GlobalVariable) (F : Function) (b : Bool) :
    visitBlocks S { globals := G, F := F, InsertedAtLeastOnePrintf := b } 0 =
      { globals := G ++ List.replicate (functionTargets F).length (nameString F.name),
        F := withInjected F (injectedCalls S G.length (functionTargets F)),
        InsertedAtLeastOnePrintf := b || !(functionTargets F).isEmpty } := by
  rw [visitBlocks_eq S _ _ 0 rfl, foldl_inject_eq]
  simp [functionTargets]

/-- The function loop, in closed form. -/
theorem visitFunctions_eq (S : Symbols) (fs : List Function) :
    ∀ (G : List GlobalVariable) (b : Bool),
      visitFunctions S fs G b =
        (instrumented S fs G.length, G ++ nameStrings fs,
          b || fs.any (fun F => !(functionTargets F).isEmpty)) := by
  induction fs with
  | nil => intro G b; simp [visitFunctions, instrumented, nameStrings]
  | cons F rest ih =>
    intro G b
    simp only [visitFunctions, visitBlocks_zero, ih, instrumented, nameStrings,
      List.flatMap_cons, List.length_append, List.length_replicate, List.append_assoc,
      List.any_cons, Bool.or_assoc]

/-! ### Symbol lists: lookup, update and count -/

theorem length_updateAt {α : Type} (l : List α) (i : Nat) (f : α → α) :
    (updateAt l i f).length = l.length := by
  induction l generalizing i with
  | nil => simp [updateAt]
  | cons x xs ih => cases i <;> simp [updateAt, ih]

theorem getElem?_updateAt {α : Type} (l : List α) (i j : Nat) (f : α → α) :
    (updateAt l i f)[j]? = if j = i then (l[j]?).map f else l[j]? := by
  induction l generalizing i j with
  | nil => simp [updateAt]
  | cons x xs ih =>
    cases i with
    | zero => cases j <;> simp [updateAt]
    | succ i => cases j <;> simp [updateAt, ih]

theorem map_updateAt {α β : Type} (l : List α) (i : Nat) (f : α → α) (g : α → β)
    (hg : ∀ x, g (f x) = g x) : (updateAt l i f).map g = l.map g := by
  induction l generalizing i with
  | nil => simp [updateAt]
  | cons x xs ih => cases i <;> simp [updateAt, ih, hg]

theorem findNamed_some {α : Type} (nameOf : α → String) (l : List α) (name : String) (i : Nat)
    (h : findNamed nameOf l name = some i) : ∃ x, l[i]? = some x ∧ nameOf x = name := by
  induction l generalizing i with
  | nil => simp [findNamed] at h
  | cons x xs ih =>
    simp only [findNamed] at h
    split at h
    · rename_i hx
      simp only [Option.some.injEq] at h
      subst h
      exact ⟨x, by simp, hx⟩
    · simp only [Option.map_eq_some'] at h
      obtain ⟨k, hk, rfl⟩ := h
      obtain ⟨y, hy, hn⟩ := ih k hk
      exact ⟨y, by simpa using hy, hn⟩

/-- The decimal digit of a number below ten stands for that number. -/
theorem digitChar_toNat (m : Nat) (h : m < 10) : (Nat.digitChar m).toNat - 48 = m := by
  interval_cases m <;> rfl

theorem toDigitsCore_append (fuel : Nat) : ∀ (n : Nat) (ds : List Char),
    Nat.toDigitsCore 10 fuel n ds = Nat.toDigitsCore 10 fuel n [] ++ ds := by
  induction fuel with
  | zero => intro n ds; simp [Nat.toDigitsCore]
  | succ f ih =>
    intro n ds
    simp only [Nat.toDigitsCore]
    split
    · simp
    · rw [ih (n / 10) (Nat.digitChar (n % 10) :: ds), ih (n / 10) [Nat.digitChar (n % 10)]]
      simp

theorem decodeDigits_concat (ds : List Char) (c : Char) :
    decodeDigits (ds ++ [c]) = decodeDigits ds * 10 + (c.toNat - 48) := by
  simp [decodeDigits, List.foldl_append]

theorem decodeDigits_toDigitsCore (fuel : Nat) : ∀ n : Nat, n < fuel →
    decodeDigits (Nat.toDigitsCore 10 fuel n []) = n := by
  induction fuel with
  | zero => intro n h; omega
  | succ f ih =>
    intro n h
    simp only [Nat.toDigitsCore]
    split
    · rename_i h0
      have : n % 10 = n := by omega
      simp only [decodeDigits, List.foldl_cons, List.foldl_nil]
      rw [digitChar_toNat _ (Nat.mod_lt _ (by decide))]
      omega
    · rename_i h0
      rw [toDigitsCore_append, decodeDigits_concat, digitChar_toNat _ (Nat.mod_lt _ (by decide))]
      have hlt : n / 10 < f := by omega
      rw [ih _ hlt]
      omega

theorem decodeDigits_toString (n : Nat) : decodeDigits (toString n).data = n := by
  show decodeDigits (Nat.repr n).data = n
  simp only [Nat.repr, Nat.toDigits, List.asString]
  exact decodeDigits_toDigitsCore _ _ (Nat.lt_succ_self n)

theorem uniqueNameCandidate_injective (isNVPTX : Bool) (name : String) (a b : Nat)
    (h : uniqueNameCandidate isNVPTX name a = uniqueNameCandidate isNVPTX name b) : a = b := by
  have hd : (toString a).data = (toString b).data := by
    have h2 := congrArg String.data h
    unfold uniqueNameCandidate at h2
    cases isNVPTX
    · simp only [Bool.false_eq_true, if_false, String.data_append] at h2
      exact List.append_cancel_left h2
    · simp only [if_true, String.data_append] at h2
      exact List.append_cancel_left h2
  have := congrArg decodeDigits hd
  rw [decodeDigits_toString, decodeDigits_toString] at this
  exact this

/-- After `tried.length` different taken names, `fuel` more steps with
`tried.length + fuel` at least the number of taken names end on a free one. -/
theorem makeUniqueName_not_taken_aux (isNVPTX : Bool) (taken : List String) (name : String)
    (fuel : Nat) : ∀ (k : Nat) (tried : List String),
      tried.Nodup → tried ⊆ taken →
      (∀ s ∈ tried, ∃ j, j ≤ k ∧ s = uniqueNameCandidate isNVPTX name j) →
      taken.length ≤ tried.length + fuel →
      (makeUniqueName isNVPTX taken name fuel k).1 ∉ taken ∧
      k < (makeUniqueName isNVPTX taken name fuel k).2 := by
  induction fuel with
  | zero =>
    intro k tried hnd hsub hidx hlen
    simp only [makeUniqueName]
    refine ⟨?_, Nat.lt_succ_self k⟩
    intro hmem
    have hnew : uniqueNameCandidate isNVPTX name (k + 1) ∉ tried := by
      intro ht
      obtain ⟨j, hj, he⟩ := hidx _ ht
      have := uniqueNameCandidate_injective _ _ _ _ he
      omega
    have hnd2 : (uniqueNameCandidate isNVPTX name (k + 1) :: tried).Nodup :=
      List.nodup_cons.2 ⟨hnew, hnd⟩
    have hsub2 : uniqueNameCandidate isNVPTX name (k + 1) :: tried ⊆ taken :=
      List.cons_subset.2 ⟨hmem, hsub⟩
    have := (List.subperm_of_subset hnd2 hsub2).length_le
    simp only [List.length_cons] at this
    omega
  | succ f ih =>
    intro k tried hnd hsub hidx hlen
    simp only [makeUniqueName]
    split
    · rename_i hmem
      have hnew : uniqueNameCandidate isNVPTX name (k + 1) ∉ tried := by
        intro ht
        obtain ⟨j, hj, he⟩ := hidx _ ht
        have := uniqueNameCandidate_injective _ _ _ _ he
        omega
      have h := ih (k + 1) (uniqueNameCandidate isNVPTX name (k + 1) :: tried)
        (List.nodup_cons.2 ⟨hnew, hnd⟩) (List.cons_subset.2 ⟨hmem, hsub⟩)
        (by
          intro s hs
          rcases List.mem_cons.1 hs with h1 | h1
          · exact ⟨k + 1, Nat.le_refl _, h1⟩
          · obtain ⟨j, hj, he⟩ := hidx s h1
            exact ⟨j, by omega, he⟩)
        (by simp only [List.length_cons]; omega)
      exact ⟨h.1, by omega⟩
    · rename_i hmem
      exact ⟨hmem, Nat.lt_succ_self k⟩

/-- The name `makeUniqueName` returns with as much fuel as there are taken
names is not taken, and `LastUnique` has grown. -/
theorem makeUniqueName_not_taken (isNVPTX : Bool) (taken : List String) (name : String)
    (k : Nat) :
    (makeUniqueName isNVPTX taken name taken.length k).1 ∉ taken ∧
    k < (makeUniqueName isNVPTX taken name taken.length k).2 :=
  makeUniqueName_not_taken_aux isNVPTX taken name taken.length k [] List.nodup_nil
    (List.nil_subset _) (by intro s hs; simp at hs) (by simp)

/-- A named global variable that enters the module has, once it is in, a name
no symbol of the module had before. -/
theorem insertGlobalVariable_name_fresh (M : Module) (G : GlobalVariable) (h : G.name ≠ "") :
    ∃ G', (M.insertGlobalVariable G).1.globals = M.globals ++ [G'] ∧
      G'.name ∉ M.symbolNames := by
  unfold Module.insertGlobalVariable
  split
  · exact ⟨_, rfl, (makeUniqueName_not_taken _ _ _ _).1⟩
  · rename_i hn
    exact ⟨G, rfl, fun hmem => hn ⟨h, hmem⟩⟩

/-! ### Steps 1 and 2 -/

/-- A name no element carries is not found, and conversely. -/
theorem findNamed_eq_none_iff {α : Type} (nameOf : α → String) (l : List α) (name : String) :
    findNamed nameOf l name = none ↔ name ∉ l.map nameOf := by
  induction l with
  | nil => simp [findNamed]
  | cons x xs ih =>
    simp only [findNamed, List.map_cons, List.mem_cons, not_or]
    by_cases hx : nameOf x = name
    · simp [hx]
    · simp only [hx, if_false, Option.map_eq_none', ih]
      constructor
      · intro h; exact ⟨fun e => hx e.symm, h⟩
      · intro h; exact h.2

/-- When `printf` is the name of no global variable and of no alias,
`getNamedValue` finds a function or nothing. -/
theorem getNamedValue_printf (M : Module) (hv : findGlobal M.globals "printf" = none)
    (ha : "printf" ∉ M.aliases) :
    M.getNamedValue "printf" =
      (findFunction M.functions "printf").map GlobalValue.function := by
  unfold Module.getNamedValue
  cases findFunction M.functions "printf" <;> simp [hv, ha]

theorem setPrintfAttributes_name (F : Function) : (setPrintfAttributes F).name = F.name := by
  unfold setPrintfAttributes Function.setDoesNotThrow Function.addParamAttr Function.addFnAttr
  repeat' split
  all_goals rfl

theorem afterPrintf_function_names (M : Module) :
    (afterPrintf M).functions.map Function.name =
      (M.functions ++
        if (findFunction M.functions "printf").isSome then [] else [printfDeclaration]).map
          Function.name := by
  unfold afterPrintf
  exact map_updateAt _ _ _ _ setPrintfAttributes_name

/-- A new global variable leaves the functions and the aliases as they are. -/
theorem insertGlobalVariable_frame (M : Module) (G : GlobalVariable) :
    (M.insertGlobalVariable G).1.functions = M.functions ∧
    (M.insertGlobalVariable G).1.aliases = M.aliases ∧
    (M.insertGlobalVariable G).2 = M.globals.length ∧
    ∃ G', (M.insertGlobalVariable G).1.globals = M.globals ++ [G'] ∧
      G'.initializer = G.initializer ∧
      (G.name ∉ M.symbolNames → G' = G ∧ (M.insertGlobalVariable G).1.lastUnique = M.lastUnique) := by
  unfold Module.insertGlobalVariable
  split
  · rename_i h
    refine ⟨rfl, rfl, rfl, _, rfl, rfl, ?_⟩
    intro hn
    exact absurd h.2 hn
  · exact ⟨rfl, rfl, rfl, G, rfl, rfl, fun _ => ⟨rfl, rfl⟩⟩

/-- Looking up or creating a global variable leaves the functions and the
aliases as they are, and returns the position of a global of the module. -/
theorem getOrInsertGlobal_frame (M : Module) (name : String) (ty : Ty) :
    (M.getOrInsertGlobal name ty).1.functions = M.functions ∧
    (M.getOrInsertGlobal name ty).1.aliases = M.aliases ∧
    ∃ G, (M.getOrInsertGlobal name ty).1.globals[(M.getOrInsertGlobal name ty).2]? = some G := by
  have hnew : ∀ G0 : GlobalVariable,
      (M.insertGlobalVariable G0).1.functions = M.functions ∧
      (M.insertGlobalVariable G0).1.aliases = M.aliases ∧
      ∃ G, (M.insertGlobalVariable G0).1.globals[(M.insertGlobalVariable G0).2]? = some G := by
    intro G0
    obtain ⟨h1, h2, h3, G', h4, _⟩ := insertGlobalVariable_frame M G0
    refine ⟨h1, h2, G', ?_⟩
    rw [h3, h4]
    simp
  unfold Module.getOrInsertGlobal
  split
  · rename_i i hi
    refine ⟨rfl, rfl, ?_⟩
    unfold Module.getNamedValue at hi
    cases hf : findFunction M.functions name with
    | some j => simp [hf] at hi
    | none =>
      cases hg : findGlobal M.globals name with
      | none =>
        simp only [hf, hg] at hi
        split at hi <;> simp at hi
      | some j =>
        simp only [hf, hg, Option.some.injEq, GlobalValue.variable.injEq] at hi
        subst hi
        obtain ⟨G, hG, _⟩ := findNamed_some _ _ _ _ hg
        exact ⟨G, hG⟩
  · exact hnew _

theorem afterSetup_functions (M : Module) :
    (afterSetup M).functions =
      updateAt
        (M.functions ++
          if (findFunction M.functions "printf").isSome then [] else [printfDeclaration])
        (printfIndex M) setPrintfAttributes := by
  show ((afterPrintf M).getOrInsertGlobal _ _).1.functions = _
  rw [(getOrInsertGlobal_frame _ _ _).1]
  rfl

/-- The global that line 57 returns holds the format string after line 58. -/
theorem afterSetup_format_initializer (M : Module) :
    ∃ G, (afterSetup M).globals[formatIndex M]? = some G ∧
      G.initializer = some (Constant.dataArrayString formatString) := by
  obtain ⟨G, hG⟩ := (getOrInsertGlobal_frame (afterPrintf M) "PrintfFormatStr"
    (Constant.dataArrayString formatString).getType).2.2
  refine ⟨G.setInitializer (Constant.dataArrayString formatString), ?_, rfl⟩
  show (updateAt _ _ _)[_]? = _
  rw [getElem?_updateAt]
  simp only [if_true]
  unfold formatIndex
  rw [hG]
  rfl

/-- When `PrintfFormatStr` is the name of no function and of no alias, step 2
finds the global variable of that name or creates one with that name. -/
theorem getOrInsertGlobal_format (M : Module)
    (hfn : findFunction M.functions "PrintfFormatStr" = none)
    (han : "PrintfFormatStr" ∉ M.aliases) :
    (afterPrintf M).getOrInsertGlobal "PrintfFormatStr"
        (Constant.dataArrayString formatString).getType =
      ({ afterPrintf M with globals := M.globals ++
          if (findGlobal M.globals "PrintfFormatStr").isSome then [] else [formatGlobal] },
        (findGlobal M.globals "PrintfFormatStr").getD M.globals.length) := by
  have hfn2 : findFunction (afterPrintf M).functions "PrintfFormatStr" = none := by
    unfold findFunction
    rw [findNamed_eq_none_iff, afterPrintf_function_names, List.map_append, List.mem_append,
      not_or]
    refine ⟨(findNamed_eq_none_iff _ _ _).1 hfn, ?_⟩
    split <;> simp [printfDeclaration]
  have hgl : (afterPrintf M).globals = M.globals := rfl
  have hal : (afterPrintf M).aliases = M.aliases := rfl
  unfold Module.getOrInsertGlobal Module.getNamedValue
  rw [hfn2, hgl, hal]
  cases hg : findGlobal M.globals "PrintfFormatStr" with
  | some i =>
    simp only [Option.isSome_some, if_true, List.append_nil, Option.getD_some]
    rfl
  | none =>
    have hfree : "PrintfFormatStr" ∉ (afterPrintf M).symbolNames := by
      unfold Module.symbolNames
      rw [hgl, hal]
      simp only [List.mem_append, not_or]
      exact ⟨⟨(findNamed_eq_none_iff _ _ _).1 hfn2, (findNamed_eq_none_iff _ _ _).1 hg⟩, han⟩
    simp only [han, if_false, Option.isSome_none, Bool.false_eq_true, Option.getD_none]
    unfold Module.insertGlobalVariable
    simp only [hfree, and_false, if_false, hgl]
    rfl

theorem formatIndex_eq (M : Module)
    (hfn : findFunction M.functions "PrintfFormatStr" = none)
    (han : "PrintfFormatStr" ∉ M.aliases) :
    formatIndex M = (findGlobal M.globals "PrintfFormatStr").getD M.globals.length := by
  unfold formatIndex
  rw [getOrInsertGlobal_format M hfn han]

theorem afterSetup_globals (M : Module)
    (hfn : findFunction M.functions "PrintfFormatStr" = none)
    (han : "PrintfFormatStr" ∉ M.aliases) :
    (afterSetup M).globals =
      updateAt
        (M.globals ++
          if (findGlobal M.globals "PrintfFormatStr").isSome then [] else [formatGlobal])
        (formatIndex M)
        (fun G => G.setInitializer (Constant.dataArrayString formatString)) := by
  unfold afterSetup
  rw [getOrInsertGlobal_format M hfn han]

/-- The whole run in closed form: when `printf` is the name of no global
variable and of no alias, `runOnModule` returns, and what it returns is steps
1 and 2 followed by the instrumentation of every function. -/
theorem runOnModule_eq (M : Module) (hv : findGlobal M.globals "printf" = none)
    (ha : "printf" ∉ M.aliases) :
    runOnModule M = some (runResult M) := by
  unfold runOnModule Module.getOrInsertFunction
  rw [getNamedValue_printf M hv ha]
  cases hf : findFunction M.functions "printf" with
  | some i =>
    have hidx : printfIndex M = i := by simp [printfIndex, hf]
    have hap : afterPrintf M =
        { M with functions := updateAt M.functions i setPrintfAttributes } := by
      simp [afterPrintf, hf, hidx]
    unfold runResult afterSetup symbolsOf formatIndex
    rw [hap, hidx]
    simp only [Option.map_some', visitFunctions_eq, Bool.false_or]
    rfl
  | none =>
    have hidx : printfIndex M = M.functions.length := by simp [printfIndex, hf]
    have hap : afterPrintf M = { M with functions :=
        (updateAt (M.functions ++ [printfDeclaration]) M.functions.length setPrintfAttributes) } := by
      simp [afterPrintf, hf, hidx]
    unfold runResult afterSetup symbolsOf formatIndex
    rw [hap, hidx]
    simp only [Option.map_none', visitFunctions_eq, Bool.false_or]
    rfl

/-- When `printf` is the name of a global variable or of an alias and of no
function, the run ends at line 46 without result. -/
theorem runOnModule_eq_none (M : Module) (hf : findFunction M.functions "printf" = none)
    (h : findGlobal M.globals "printf" ≠ none ∨ "printf" ∈ M.aliases) :
    runOnModule M = none := by
  unfold runOnModule Module.getOrInsertFunction Module.getNamedValue
  rw [hf]
  cases hg : findGlobal M.globals "printf" with
  | some i => rfl
  | none =>
    rcases h with h | h
    · exact absurd hg h
    · simp [h]

theorem afterSetup_functions_eq (M : Module) :
    (afterSetup M).functions = (afterPrintf M).functions := by
  show ((afterPrintf M).getOrInsertGlobal _ _).1.functions = _
  exact (getOrInsertGlobal_frame _ _ _).1

theorem setPrintfAttributes_blocks (F : Function) :
    (setPrintfAttributes F).blocks = F.blocks := by
  unfold setPrintfAttributes Function.setDoesNotThrow Function.addParamAttr Function.addFnAttr
  repeat' split
  all_goals rfl

/-- The function at position `i` of the module after steps 1 and 2: the one
of the module before, with its attributes set if it is `printf`. -/
theorem afterSetup_function_at (M : Module) (i : Nat) (F : Function)
    (h : M.functions[i]? = some F) :
    (afterSetup M).functions[i]? =
      some (if i = printfIndex M then setPrintfAttributes F else F) := by
  have hlt : i < M.functions.length := by
    rcases List.getElem?_eq_some.1 h with ⟨hlt, _⟩
    exact hlt
  rw [afterSetup_functions, getElem?_updateAt, List.getElem?_append_left hlt, h]
  split <;> simp

theorem afterSetup_functions_length (M : Module) :
    M.functions.length ≤ (afterSetup M).functions.length := by
  rw [afterSetup_functions, length_updateAt]
  simp

/-- Steps 1 and 2 leave the blocks of every function as they are; a new
declaration of `printf` has none. -/
theorem afterSetup_blocks (M : Module) :
    (afterSetup M).functions.map (fun F => F.blocks) =
      M.functions.map (fun F => F.blocks) ++
        if (findFunction M.functions "printf").isSome then [] else [[]] := by
  rw [afterSetup_functions, map_updateAt _ _ _ _ setPrintfAttributes_blocks]
  split <;> simp [printfDeclaration]

/-- The classification the passes apply yields the called operand exactly on
the indirect call sites. -/
theorem indirectCallTarget_eq (I : Instr) :
    indirectCallTarget I = if isIndirectCall I then getCalledOperand? I else none := by
  cases I with
  | call r fnTy op args =>
    simp only [indirectCallTarget, isIndirectCall, getCalledOperand?]
    cases getCalledFunction fnTy op <;> simp
  | _ => rfl

theorem blockTargets_eq (B : BasicBlock) :
    blockTargets B = (blockSites B).filterMap getCalledOperand? := by
  induction B with
  | nil => rfl
  | cons I rest ih =>
    simp only [blockTargets, blockSites, List.filterMap_cons, List.filter_cons,
      indirectCallTarget_eq] at ih ⊢
    by_cases hI : isIndirectCall I = true
    · simp only [hI, if_true, List.filterMap_cons]
      cases hop : getCalledOperand? I with
      | none => simpa [hop] using ih
      | some v => simpa [hop] using ih
    · simp only [hI]
      simpa using ih

theorem functionTargets_eq (F : Function) :
    functionTargets F = (callSites F).filterMap getCalledOperand? := by
  unfold functionTargets callSites
  induction F.blocks with
  | nil => rfl
  | cons B rest ih => simp [List.flatMap_cons, List.filterMap_append, blockTargets_eq, ih]

/-- Every indirect call site has a called operand, so there are as many
targets as sites. -/
theorem blockTargets_length (B : BasicBlock) :
    (blockTargets B).length = (blockSites B).length := by
  induction B with
  | nil => rfl
  | cons I rest ih =>
    simp only [blockTargets, blockSites, List.filterMap_cons, List.filter_cons,
      indirectCallTarget_eq] at ih ⊢
    by_cases hI : isIndirectCall I = true
    · simp only [hI, if_true]
      cases I <;> simp [isIndirectCall] at hI
      simp [getCalledOperand?, ih]
    · simp only [hI]
      simpa using ih

theorem functionTargets_length (F : Function) :
    (functionTargets F).length = (callSites F).length := by
  unfold functionTargets callSites
  induction F.blocks with
  | nil => rfl
  | cons B rest ih => simp [List.flatMap_cons, blockTargets_length, ih]

/-- The `k`-th target of a function is the called operand of its `k`-th site. -/
theorem functionTargets_getElem? (F : Function) (k : Nat) (site : Instr)
    (h : (callSites F)[k]? = some site) :
    ∃ v, (functionTargets F)[k]? = some v ∧ getCalledOperand? site = some v := by
  have key : ∀ (l : List Instr), (∀ I ∈ l, isIndirectCall I = true) →
      ∀ (k : Nat) (site : Instr), l[k]? = some site →
        ∃ v, (l.filterMap getCalledOperand?)[k]? = some v ∧ getCalledOperand? site = some v := by
    intro l
    induction l with
    | nil => intro _ k site h; simp at h
    | cons I rest ih =>
      intro hall k site h
      have hI := hall I (by simp)
      obtain ⟨v, hv⟩ : ∃ v, getCalledOperand? I = some v := by
        cases I <;> simp [isIndirectCall] at hI
        exact ⟨_, rfl⟩
      cases k with
      | zero =>
        simp only [List.getElem?_cons_zero, Option.some.injEq] at h
        subst h
        exact ⟨v, by simp [List.filterMap_cons, hv], hv⟩
      | succ k =>
        simp only [List.getElem?_cons_succ] at h
        obtain ⟨w, hw, hs⟩ := ih (fun J hJ => hall J (by simp [hJ])) k site h
        exact ⟨w, by simpa [List.filterMap_cons, hv] using hw, hs⟩
  rw [functionTargets_eq]
  apply key (callSites F) _ k site h
  intro I hI
  simp only [callSites, blockSites, List.mem_flatMap, List.mem_filter] at hI
  obtain ⟨_, _, _, h2⟩ := hI
  exact h2

/-! ### Step 3 in closed form, function by function -/

theorem instrumented_getElem? (S : Symbols) (fs : List Function) :
    ∀ (g i : Nat), (instrumented S fs g)[i]? =
      (fs[i]?).map (fun F =>
        withInjected F (injectedCalls S (g + stringsBefore fs i) (functionTargets F))) := by
  induction fs with
  | nil => intro g i; simp [instrumented]
  | cons F rest ih =>
    intro g i
    cases i with
    | zero => simp [instrumented, stringsBefore]
    | succ i =>
      simp only [instrumented, List.getElem?_cons_succ, ih, stringsBefore, List.take_succ_cons,
        List.flatMap_cons, List.length_append]
      congr 1
      funext F0
      rw [Nat.add_assoc]

theorem instrumented_length (S : Symbols) (fs : List Function) :
    ∀ g : Nat, (instrumented S fs g).length = fs.length := by
  induction fs with
  | nil => intro g; rfl
  | cons F rest ih => intro g; simp [instrumented, ih]

theorem injectedCalls_length (S : Symbols) (vs : List Value) :
    ∀ g : Nat, (injectedCalls S g vs).length = vs.length := by
  induction vs with
  | nil => intro g; rfl
  | cons v rest ih => intro g; simp [injectedCalls, ih]

theorem injectedCalls_getElem? (S : Symbols) (vs : List Value) :
    ∀ (g k : Nat), (injectedCalls S g vs)[k]? = (vs[k]?).map (fun v => injectedCall S (g + k) v) := by
  induction vs with
  | nil => intro g k; simp [injectedCalls]
  | cons v rest ih =>
    intro g k
    cases k with
    | zero => simp [injectedCalls]
    | succ k =>
      simp only [injectedCalls, List.getElem?_cons_succ, ih]
      congr 1
      funext w
      congr 1
      omega

/-- The name string created for the `k`-th indirect call of the function at
position `i` holds the name of that function. -/
theorem nameStrings_getElem? (fs : List Function) :
    ∀ (i k : Nat) (F : Function), fs[i]? = some F → k < (functionTargets F).length →
      (nameStrings fs)[stringsBefore fs i + k]? = some (nameString F.name) := by
  induction fs with
  | nil => intro i k F h; simp at h
  | cons F0 rest ih =>
    intro i k F h hk
    cases i with
    | zero =>
      simp only [List.getElem?_cons_zero, Option.some.injEq] at h
      subst h
      simp only [nameStrings, stringsBefore, List.take_zero, List.flatMap_nil, List.length_nil,
        Nat.zero_add, List.flatMap_cons]
      rw [List.getElem?_append_left (by simpa using hk)]
      simp [List.getElem?_replicate, hk]
    | succ i =>
      simp only [List.getElem?_cons_succ] at h
      have := ih i k F h hk
      simp only [nameStrings, stringsBefore, List.take_succ_cons, List.flatMap_cons,
        List.length_append] at this ⊢
      rw [List.getElem?_append_right (by simp; omega)]
      simp only [List.length_replicate]
      have e : (functionTargets F0).length +
          ((List.take i rest).flatMap functionTargets).length + k -
            (functionTargets F0).length =
          ((List.take i rest).flatMap functionTargets).length + k := by omega
      rw [e]
      exact this

theorem withInjected_blocks (F : Function) (cs : List Instr) :
    (withInjected F cs).blocks =
      match F.blocks with
      | [] => []
      | E :: rest =>
        (E.take (getFirstInsertionPt E) ++ cs.reverse ++ E.drop (getFirstInsertionPt E)) :: rest := by
  unfold withInjected Function.setEntryBlock Function.getEntryBlock
  cases hb : F.blocks <;> simp [hb]

theorem withInjected_fnTy (F : Function) (cs : List Instr) :
    (withInjected F cs).fnTy = F.fnTy := by
  unfold withInjected Function.setEntryBlock
  cases F.blocks <;> rfl

theorem withInjected_nil (F : Function) : withInjected F [] = F := by
  unfold withInjected Function.setEntryBlock Function.getEntryBlock
  cases hb : F.blocks <;> simp [hb]
  cases F
  simp_all

/-- Targets depend on the blocks only. -/
theorem functionTargets_of_blocks (F G : Function) (h : F.blocks = G.blocks) :
    functionTargets F = functionTargets G := by
  simp [functionTargets, h]

/-- The function at position `i` after the whole run: the function before,
with the attributes of `printf` set if it is `printf`, and with one call per
indirect call site inserted at the first insertion point of its entry
block. -/
theorem runResult_function_at (M : Module) (i : Nat) (F : Function)
    (h : M.functions[i]? = some F) :
    (runResult M).1.functions[i]? =
      some (withInjected (if i = printfIndex M then setPrintfAttributes F else F)
        (injectedCalls (symbolsOf M)
          ((afterSetup M).globals.length + stringsBefore (afterSetup M).functions i)
          (functionTargets F))) := by
  show (instrumented _ _ _)[i]? = _
  simp only [instrumented_getElem?, afterSetup_function_at M i F h, Option.map_some']
  congr 2
  apply congrArg
  split
  · exact functionTargets_of_blocks _ _ (setPrintfAttributes_blocks F)
  · rfl

/-- After steps 1 and 2 the function at `printfIndex` is called `printf`. -/
theorem afterSetup_printf (M : Module) :
    ∃ P, (afterSetup M).functions[printfIndex M]? = some P ∧ P.name = "printf" := by
  rw [afterSetup_functions, getElem?_updateAt]
  simp only [if_true]
  unfold printfIndex
  cases hf : findFunction M.functions "printf" with
  | none =>
    refine ⟨setPrintfAttributes printfDeclaration, ?_, ?_⟩
    · simp
    · rw [setPrintfAttributes_name]; rfl
  | some i =>
    obtain ⟨F, hF, hn⟩ := findNamed_some _ _ _ _ hf
    refine ⟨setPrintfAttributes F, ?_, ?_⟩
    · simp [hF]
    · rw [setPrintfAttributes_name]; exact hn

/-- After steps 1 and 2 the global at `formatIndex` is called
`PrintfFormatStr` and holds the format string. -/
theorem afterSetup_format (M : Module)
    (hfn : findFunction M.functions "PrintfFormatStr" = none)
    (han : "PrintfFormatStr" ∉ M.aliases) :
    ∃ G, (afterSetup M).globals[formatIndex M]? = some G ∧ G.name = "PrintfFormatStr" ∧
      G.initializer = some (Constant.dataArrayString formatString) := by
  rw [afterSetup_globals M hfn han, getElem?_updateAt, formatIndex_eq M hfn han]
  simp only [if_true]
  cases hf : findGlobal M.globals "PrintfFormatStr" with
  | none =>
    refine ⟨formatGlobal.setInitializer (Constant.dataArrayString formatString), ?_, rfl, rfl⟩
    simp
  | some i =>
    obtain ⟨G, hG, hn⟩ := findNamed_some _ _ _ _ hf
    refine ⟨G.setInitializer (Constant.dataArrayString formatString), ?_, hn, rfl⟩
    simp [hG]

/-- The call created for the target `v` with name string number `g`, spelt out. -/
theorem injectedCall_symbolsOf (M : Module) (g : Nat) (v : Value) (P : Function)
    (hP : (afterSetup M).functions[printfIndex M]? = some P) :
    injectedCall (symbolsOf M) g v =
      Instr.call none PrintfTy (Value.func "printf" P.fnTy)
        [Value.global (formatIndex M), Value.global g, v] := by
  unfold symbolsOf
  rw [← afterSetup_functions_eq]
  simp [injectedCall, CreateCall, CreatePointerCast, Value.getType, hP]

/-- Before the first insertion point stand PHI nodes and at most a leading
EH pad. -/
theorem getFirstInsertionPt_take (B : BasicBlock) :
    ∀ I ∈ B.take (getFirstInsertionPt B), I.isPHI = true ∨ I.isEHPad = true := by
  induction B with
  | nil => simp
  | cons J rest ih =>
    by_cases hJ : J.isPHI = true
    · rw [getFirstInsertionPt_cons_phi J rest hJ]
      intro I hI
      simp only [List.take_succ_cons, List.mem_cons] at hI
      rcases hI with rfl | hI
      · exact Or.inl hJ
      · exact ih I hI
    · rw [getFirstInsertionPt_cons_nonphi J rest (by simpa using hJ)]
      by_cases hE : J.isEHPad = true
      · simp only [hE, if_true, List.take_succ_cons, List.take_zero, List.mem_singleton]
        intro I hI
        subst hI
        exact Or.inr hE
      · simp [hE]

/-- Functions without targets come out of step 3 as they went in, and no
name string is created for them. -/
theorem instrumented_of_no_target (S : Symbols) (fs : List Function)
    (h : ∀ F ∈ fs, functionTargets F = []) :
    ∀ g : Nat, instrumented S fs g = fs ∧ nameStrings fs = [] := by
  induction fs with
  | nil => intro g; exact ⟨rfl, rfl⟩
  | cons F rest ih =>
    intro g
    have hF := h F (by simp)
    obtain ⟨h1, h2⟩ := ih (fun G hG => h G (by simp [hG])) g
    constructor
    · simp only [instrumented, hF, injectedCalls, withInjected_nil, List.length_nil,
        Nat.add_zero, h1]
    · simp only [nameStrings, List.flatMap_cons, hF, List.length_nil, List.replicate_zero,
        List.nil_append] at h2 ⊢
      exact h2

/-- Steps 1 and 2 create no target. -/
theorem afterSetup_no_target (M : Module) (h : M.functions.flatMap callSites = []) :
    ∀ F ∈ (afterSetup M).functions, functionTargets F = [] := by
  intro F hF
  have hmem : F.blocks ∈ (afterSetup M).functions.map (fun F => F.blocks) :=
    List.mem_map_of_mem _ hF
  rw [afterSetup_blocks] at hmem
  simp only [List.mem_append, List.mem_map] at hmem
  rcases hmem with ⟨G, hG, hGb⟩ | hmem
  · rw [functionTargets_of_blocks F G hGb.symm]
    have hs : callSites G = [] := by
      simp only [List.flatMap_eq_nil_iff] at h
      exact h G hG
    have := functionTargets_length G
    rw [hs] at this
    exact List.eq_nil_of_length_eq_zero this
  · split at hmem
    · simp at hmem
    · simp only [List.mem_singleton] at hmem
      simp [functionTargets, hmem]

/-! ### Running the pass on its own output -/

/-- After lines 46-48 the function has the three attributes. -/
theorem setPrintfAttributes_has (F : Function) :
    Attr.NoUnwind ∈ (setPrintfAttributes F).fnAttrs ∧
    (0, Attr.NoCapture) ∈ (setPrintfAttributes F).paramAttrs ∧
    (0, Attr.ReadOnly) ∈ (setPrintfAttributes F).paramAttrs := by
  unfold setPrintfAttributes Function.setDoesNotThrow Function.addFnAttr Function.addParamAttr
  by_cases h1 : Attr.NoUnwind ∈ F.fnAttrs <;>
    by_cases h2 : (0, Attr.NoCapture) ∈ F.paramAttrs <;>
    by_cases h3 : (0, Attr.ReadOnly) ∈ F.paramAttrs <;>
    simp [h1, h2, h3]

/-- After steps 1 and 2 the function at `printfIndex` has the three attributes. -/
theorem afterSetup_printf_attrs (M : Module) :
    ∃ P, (afterSetup M).functions[printfIndex M]? = some P ∧
      Attr.NoUnwind ∈ P.fnAttrs ∧ (0, Attr.NoCapture) ∈ P.paramAttrs ∧
      (0, Attr.ReadOnly) ∈ P.paramAttrs := by
  obtain ⟨P, hP, _⟩ := afterSetup_printf M
  rw [afterSetup_functions, getElem?_updateAt] at hP
  simp only [if_true, Option.map_eq_some'] at hP
  obtain ⟨X, hX, rfl⟩ := hP
  refine ⟨setPrintfAttributes X, ?_, setPrintfAttributes_has X⟩
  rw [afterSetup_functions, getElem?_updateAt]
  simp [hX]

/-- On `@printf = global i32 0` the run ends at line 46 without result: the
callee that `getOrInsertFunction` returns is the global variable, the
`dyn_cast<Function>` of line 45 is null. -/
theorem runOnModule_printfVariableModule : runOnModule printfVariableModule = none := by
  decide

/-- On `declare void @PrintfFormatStr()` every run creates a new global for the
format string, which the symbol table renames: `PrintfFormatStr.1` in the
first run, `PrintfFormatStr.2` in the second. -/
theorem runOnModule_formatFunctionModule :
    (runOnModule formatFunctionModule).map (fun r => r.1.globals.map GlobalVariable.name) =
      some ["PrintfFormatStr.1"] ∧
    (runOnModule (runResult formatFunctionModule).1).map
        (fun r => r.1.globals.map GlobalVariable.name) =
      some ["PrintfFormatStr.1", "PrintfFormatStr.2"] := by
  constructor
  · rw [runOnModule_eq _ (by decide) (by decide)]
    decide
  · rw [runOnModule_eq _ (by decide) (by decide)]
    decide

/-- The flag `runOnModule` returns says whether some function of the module
has an indirect call site. -/
theorem runResult_flag_eq (M : Module) :
    (runResult M).2 = M.functions.any (fun F => !(callSites F).isEmpty) := by
  have h1 : ∀ fs : List Function,
      fs.any (fun F => !(functionTargets F).isEmpty) =
        (fs.map (fun F => F.blocks)).any (fun bs => !(bs.flatMap blockTargets).isEmpty) := by
    intro fs
    induction fs with
    | nil => rfl
    | cons F rest ih =>
      simp only [List.any_cons, List.map_cons, ih]
      rfl
  have h2 : ∀ F : Function, (functionTargets F).isEmpty = (callSites F).isEmpty := by
    intro F
    have := functionTargets_length F
    cases hT : functionTargets F <;> cases hS : callSites F <;> simp_all
  show (afterSetup M).functions.any (fun F => !(functionTargets F).isEmpty) = _
  rw [h1, afterSetup_blocks, List.any_append, ← h1]
  have h3 : (if (findFunction M.functions "printf").isSome = true then ([] : List (List BasicBlock))
      else [[]]).any (fun bs => !(bs.flatMap blockTargets).isEmpty) = false := by
    split <;> simp
  rw [h3, Bool.or_false]
  congr 1
  funext F
  rw [h2]

/-- C1: for every module in which `printf` is not the name of a global
variable or of an alias (on such a module the run ends at line 46 on a null
pointer and returns nothing), `runOnModule` returns, and it returns `false`
if and only if the module contains no indirect call site (a call instruction
with no statically known callee whose called operand has pointer type), and
`true` otherwise; `run` reports `PreservedAnalyses::all()` exactly when that
flag is `false` and `PreservedAnalyses::none()` exactly when it is `true`. -/
theorem runOnModule_flag_iff_no_call_site (M : Module)
    (hv : findGlobal M.globals "printf" = none) (ha : "printf" ∉ M.aliases) :
    ∃ (r : Module × Bool) (a : PreservedAnalyses),
      runOnModule M = some r ∧ run M = some (r.1, a) ∧
      (r.2 = false ↔ M.functions.flatMap callSites = []) ∧
      (r.2 = true ↔ M.functions.flatMap callSites ≠ []) ∧
      (a = PreservedAnalyses.all ↔ r.2 = false) ∧
      (a = PreservedAnalyses.none ↔ r.2 = true) := by
  have hrun := runOnModule_eq M hv ha
  have hflag := runResult_flag_eq M
  have hiff : (runResult M).2 = false ↔ M.functions.flatMap callSites = [] := by
    rw [hflag]
    simp only [List.any_eq_false, Bool.not_eq_true', Bool.not_eq_false', List.isEmpty_iff,
      List.flatMap_eq_nil_iff, Bool.not_eq_true, Bool.not_eq_false]
  refine ⟨runResult M,
    if (runResult M).2 then PreservedAnalyses.none else PreservedAnalyses.all,
    hrun, ?_, hiff, ?_, ?_, ?_⟩
  · unfold run
    rw [hrun]
  · rw [ne_eq, ← hiff]
    simp
  · cases h : (runResult M).2 <;> simp
  · cases h : (runResult M).2 <;> simp

/-- C1 at `twoSitesModule`, which has indirect call sites and no symbol called
`printf`. -/
theorem runOnModule_flag_iff_no_call_site_witness :
    findGlobal twoSitesModule.globals "printf" = none ∧
    "printf" ∉ twoSitesModule.aliases ∧
    ∃ r : Module × Bool,
      runOnModule twoSitesModule = some r ∧ r.2 = true ∧
      run twoSitesModule = some (r.1, PreservedAnalyses.none) := by
  refine ⟨by decide, by decide, ?_⟩
  obtain ⟨r, a, h1, h2, _, h4, _, h6⟩ :=
    runOnModule_flag_iff_no_call_site twoSitesModule (by decide) (by decide)
  have hr : r.2 = true := h4.2 (by decide)
  refine ⟨r, h1, hr, ?_⟩
  rw [h2, h6.2 hr]

/-- C2: for every module in which `printf` is not the name of a global
variable or of an alias, and every function `F` of it, the instructions
`runOnModule` adds to `F` are exactly one per indirect call site of the
original `F`: `F` keeps its blocks, the added instructions all go into its
entry block, the one added for the `k`-th site is the call
`printf(format-string pointer, pointer to a constant holding the name of F,
called operand of that site)`; the format-string pointer is the global that
holds the format string, which is called `PrintfFormatStr` unless a function
or an alias has that name.  The loop walks `F` while `F` changes: what it
inserts lands before the iterator and is not visited, and a direct call is
skipped, so neither produces a further call, there are as many added calls as
the original `F` has sites, and a function without indirect call site (one
with direct calls only, say) gains no instruction. -/
theorem runOnModule_adds_one_call_per_site (M : Module) (i : Nat) (F : Function)
    (hF : M.functions[i]? = some F)
    (hv : findGlobal M.globals "printf" = none) (ha : "printf" ∉ M.aliases) :
    ∃ (r : Module × Bool) (F' : Function) (added : List Instr),
      runOnModule M = some r ∧
      r.1.functions[i]? = some F' ∧
      F'.blocks.length = F.blocks.length ∧ F'.blocks.tail = F.blocks.tail ∧
      (∃ (p : Nat) (inserted : List Instr), inserted.Perm added ∧
        F'.getEntryBlock = F.getEntryBlock.take p ++ inserted ++ F.getEntryBlock.drop p) ∧
      added.length = (callSites F).length ∧
      (∀ (k : Nat) (site : Instr), (callSites F)[k]? = some site →
        ∃ (fmt g j : Nat) (v : Value) (P : Function) (G : GlobalVariable),
          added[k]? = some (Instr.call none PrintfTy (Value.func "printf" P.fnTy)
            [Value.global fmt, Value.global g, v]) ∧
          getCalledOperand? site = some v ∧
          r.1.globals[g]? = some (nameString F.name) ∧
          r.1.globals[fmt]? = some G ∧
          G.initializer = some (Constant.dataArrayString formatString) ∧
          (findFunction M.functions "PrintfFormatStr" = none →
            "PrintfFormatStr" ∉ M.aliases → G.name = "PrintfFormatStr") ∧
          r.1.functions[j]? = some P ∧ P.name = "printf") ∧
      ((∀ B ∈ F.blocks, ∀ I ∈ B, isIndirectCall I = false) → F'.blocks = F.blocks) := by
  have hat := runResult_function_at M i F hF
  have hF0 := afterSetup_function_at M i F hF
  generalize hF0def : (if i = printfIndex M then setPrintfAttributes F else F) = F0 at hat hF0
  have hblocks : F0.blocks = F.blocks := by
    rw [← hF0def]; split
    · exact setPrintfAttributes_blocks F
    · rfl
  have hname : F0.name = F.name := by
    rw [← hF0def]; split
    · exact setPrintfAttributes_name F
    · rfl
  have htargets : functionTargets F0 = functionTargets F :=
    functionTargets_of_blocks _ _ hblocks
  obtain ⟨P0, hP0, hP0n⟩ := afterSetup_printf M
  obtain ⟨G, hG, hGi⟩ := afterSetup_format_initializer M
  have hGlt : formatIndex M < (afterSetup M).globals.length := by
    rcases List.getElem?_eq_some.1 hG with ⟨hlt, _⟩
    exact hlt
  refine ⟨runResult M, _, injectedCalls (symbolsOf M)
    ((afterSetup M).globals.length + stringsBefore (afterSetup M).functions i)
    (functionTargets F), runOnModule_eq M hv ha, hat, ?_, ?_, ?_, ?_, ?_, ?_⟩
  · rw [withInjected_blocks, hblocks]
    cases F.blocks <;> simp
  · rw [withInjected_blocks, hblocks]
    cases F.blocks <;> simp
  · refine ⟨getFirstInsertionPt F.getEntryBlock, _, List.reverse_perm _, ?_⟩
    unfold Function.getEntryBlock
    rw [withInjected_blocks, hblocks]
    cases hb : F.blocks with
    | nil => simp [functionTargets, hb, injectedCalls]
    | cons E rest => simp
  · rw [injectedCalls_length, functionTargets_length]
  · intro k site hsite
    obtain ⟨v, hv', hop⟩ := functionTargets_getElem? F k site hsite
    have hk : k < (functionTargets F0).length := by
      rw [htargets]
      rcases List.getElem?_eq_some.1 hv' with ⟨hlt, _⟩
      exact hlt
    refine ⟨formatIndex M,
      (afterSetup M).globals.length + stringsBefore (afterSetup M).functions i + k,
      printfIndex M, v, withInjected P0 (injectedCalls (symbolsOf M)
        ((afterSetup M).globals.length + stringsBefore (afterSetup M).functions (printfIndex M))
        (functionTargets P0)), G, ?_, hop, ?_, ?_, hGi, ?_, ?_, ?_⟩
    · rw [injectedCalls_getElem?, hv', Option.map_some', withInjected_fnTy,
        injectedCall_symbolsOf M _ v P0 hP0]
    · show ((afterSetup M).globals ++ nameStrings (afterSetup M).functions)[_]? = _
      rw [List.getElem?_append_right (by omega)]
      have e : (afterSetup M).globals.length + stringsBefore (afterSetup M).functions i + k -
          (afterSetup M).globals.length = stringsBefore (afterSetup M).functions i + k := by
        omega
      rw [e, nameStrings_getElem? _ i k F0 hF0 hk, hname]
    · show ((afterSetup M).globals ++ nameStrings (afterSetup M).functions)[_]? = _
      rw [List.getElem?_append_left hGlt, hG]
    · intro hfn han
      obtain ⟨G', hG', hGn, _⟩ := afterSetup_format M hfn han
      rw [hG] at hG'
      simp only [Option.some.injEq] at hG'
      rw [hG']
      exact hGn
    · show (instrumented _ _ _)[_]? = _
      rw [instrumented_getElem?, hP0]
      rfl
    · rw [withInjected_name, hP0n]
  · intro hdirect
    have hnil : functionTargets F = [] := by
      have hs : callSites F = [] := by
        simp only [callSites, blockSites, List.flatMap_eq_nil_iff, List.filter_eq_nil_iff]
        intro B hB I hI
        simp [hdirect B hB I hI]
      have := functionTargets_length F
      rw [hs] at this
      exact List.eq_nil_of_length_eq_zero this
    rw [hnil]
    simp only [injectedCalls]
    rw [withInjected_nil, hblocks]

/-- C2 at `f` of `twoSitesModule`: two calls are added, one per site. -/
theorem runOnModule_adds_one_call_per_site_witness :
    twoSitesModule.functions[0]? = some twoSitesFunction ∧
    findGlobal twoSitesModule.globals "printf" = none ∧
    "printf" ∉ twoSitesModule.aliases ∧
    ∃ (r : Module × Bool) (F' : Function) (added : List Instr),
      runOnModule twoSitesModule = some r ∧
      r.1.functions[0]? = some F' ∧
      F'.blocks.length = 1 ∧ added.length = 2 := by
  refine ⟨by decide, by decide, by decide, ?_⟩
  obtain ⟨r, F', added, h0, h1, h2, _, _, h5, _⟩ :=
    runOnModule_adds_one_call_per_site twoSitesModule 0 twoSitesFunction (by decide)
      (by decide) (by decide)
  exact ⟨r, F', added, h0, h1, by rw [h2]; decide, by rw [h5]; decide⟩

/-- C8, as stated, fails: in `f` of `twoSitesModule` the site through argument
0 is discovered first and the site through argument 1 second, and after the
run the call injected for the second site stands first in the entry block,
the call injected for the first site after it. -/
theorem injected_calls_not_in_discovery_order :
    (runOnModule twoSitesModule).map
        (fun r => (r.1.functions[0]?).map Function.getEntryBlock) =
      some (some
        [Instr.call none PrintfTy (Value.func "printf" PrintfTy)
           [Value.global 0, Value.global 2, Value.arg 1 Ty.ptr],
         Instr.call none PrintfTy (Value.func "printf" PrintfTy)
           [Value.global 0, Value.global 1, Value.arg 0 Ty.ptr],
         Instr.call none { ret := Ty.void, params := [], isVarArg := false }
           (Value.arg 0 Ty.ptr) [],
         Instr.call none { ret := Ty.void, params := [], isVarArg := false }
           (Value.arg 1 Ty.ptr) [],
         Instr.other none "ret" []]) ∧
    (runOnModule twoSitesModule).map
        (fun r => (r.1.functions[0]?).map Function.getEntryBlock) ≠
      some (some
        [Instr.call none PrintfTy (Value.func "printf" PrintfTy)
           [Value.global 0, Value.global 1, Value.arg 0 Ty.ptr],
         Instr.call none PrintfTy (Value.func "printf" PrintfTy)
           [Value.global 0, Value.global 2, Value.arg 1 Ty.ptr],
         Instr.call none { ret := Ty.void, params := [], isVarArg := false }
           (Value.arg 0 Ty.ptr) [],
         Instr.call none { ret := Ty.void, params := [], isVarArg := false }
           (Value.arg 1 Ty.ptr) [],
         Instr.other none "ret" []]) := by
  rw [runOnModule_eq _ (by decide) (by decide)]
  decide

/-- C8, amended: for every module in which `printf` is not the name of a
global variable or of an alias, `runOnModule` returns, and for every function
`F` with indirect call sites `s1 … sN` in traversal order, after the run the
`N` injected calls stand together at the first insertion point of the entry
block of `F`, behind nothing but the leading PHI nodes and a leading EH pad
of the block, in the reverse of the order in which their sites were
discovered: `calls` lists them in discovery order (its `k`-th entry passes
the called operand of the `k`-th site) and the block holds `calls.reverse`. -/
theorem injected_calls_in_reverse_discovery_order (M : Module) (i : Nat) (F : Function)
    (hF : M.functions[i]? = some F)
    (hv : findGlobal M.globals "printf" = none) (ha : "printf" ∉ M.aliases) :
    ∃ (r : Module × Bool) (F' : Function) (calls : List Instr),
      runOnModule M = some r ∧
      r.1.functions[i]? = some F' ∧
      calls.length = (callSites F).length ∧
      (∀ (k : Nat) (site : Instr), (callSites F)[k]? = some site →
        ∃ (callee fmt name v : Value),
          calls[k]? = some (Instr.call none PrintfTy callee [fmt, name, v]) ∧
          getCalledOperand? site = some v) ∧
      F'.getEntryBlock =
        F.getEntryBlock.take (getFirstInsertionPt F.getEntryBlock) ++ calls.reverse ++
          F.getEntryBlock.drop (getFirstInsertionPt F.getEntryBlock) ∧
      (∀ I ∈ F.getEntryBlock.take (getFirstInsertionPt F.getEntryBlock),
        I.isPHI = true ∨ I.isEHPad = true) := by
  have hat := runResult_function_at M i F hF
  generalize hF0def : (if i = printfIndex M then setPrintfAttributes F else F) = F0 at hat
  have hblocks : F0.blocks = F.blocks := by
    rw [← hF0def]; split
    · exact setPrintfAttributes_blocks F
    · rfl
  obtain ⟨P0, hP0, _⟩ := afterSetup_printf M
  refine ⟨runResult M, _, injectedCalls (symbolsOf M)
    ((afterSetup M).globals.length + stringsBefore (afterSetup M).functions i)
    (functionTargets F), runOnModule_eq M hv ha, hat, ?_, ?_, ?_, getFirstInsertionPt_take _⟩
  · rw [injectedCalls_length, functionTargets_length]
  · intro k site hsite
    obtain ⟨v, hv', hop⟩ := functionTargets_getElem? F k site hsite
    refine ⟨Value.func "printf" P0.fnTy, Value.global (formatIndex M),
      Value.global ((afterSetup M).globals.length +
        stringsBefore (afterSetup M).functions i + k), v, ?_, hop⟩
    rw [injectedCalls_getElem?, hv', Option.map_some', injectedCall_symbolsOf M _ v P0 hP0]
  · unfold Function.getEntryBlock
    rw [withInjected_blocks, hblocks]
    cases hb : F.blocks with
    | nil => simp [functionTargets, hb, injectedCalls]
    | cons E rest => simp

/-- The amended C8 at `f` of `twoSitesModule`. -/
theorem injected_calls_in_reverse_discovery_order_witness :
    twoSitesModule.functions[0]? = some twoSitesFunction ∧
    findGlobal twoSitesModule.globals "printf" = none ∧
    "printf" ∉ twoSitesModule.aliases ∧
    ∃ (r : Module × Bool) (F' : Function) (calls : List Instr),
      runOnModule twoSitesModule = some r ∧
      r.1.functions[0]? = some F' ∧ calls.length = 2 ∧
      F'.getEntryBlock = calls.reverse ++ twoSitesFunction.getEntryBlock := by
  refine ⟨by decide, by decide, by decide, ?_⟩
  obtain ⟨r, F', calls, h0, h1, h2, _, h4, _⟩ :=
    injected_calls_in_reverse_discovery_order twoSitesModule 0 twoSitesFunction (by decide)
      (by decide) (by decide)
  refine ⟨r, F', calls, h0, h1, by rw [h2]; decide, ?_⟩
  rw [h4]
  have hp : getFirstInsertionPt twoSitesFunction.getEntryBlock = 0 := by decide
  rw [hp]
  simp

/-- C5, as stated, fails: the empty module has no call instruction at all,
`runOnModule` returns `false` on it, and the module is modified all the same:
it gains the declaration of `printf` and the global `PrintfFormatStr`, which
steps 1 and 2 create before any function is looked at. -/
theorem symbols_created_without_call_site :
    emptyModule.functions.flatMap callSites = [] ∧
    runOnModule emptyModule =
      some
        ({ functions :=
             [{ name := "printf", fnTy := PrintfTy, fnAttrs := [Attr.NoUnwind],
                paramAttrs := [(0, Attr.NoCapture), (0, Attr.ReadOnly)], blocks := [] }],
           globals :=
             [{ name := "PrintfFormatStr", valueType := Ty.array 53 (Ty.int 8),
                isConstant := false, linkage := Linkage.ExternalLinkage, unnamedAddr := false,
                initializer := some (Constant.dataArrayString formatString) }],
           aliases := [],
           lastUnique := 0,
           targetIsNVPTX := false },
         false) ∧
    (runOnModule emptyModule).map (fun r => r.1) ≠ some emptyModule := by
  rw [runOnModule_eq _ (by decide) (by decide)]
  decide

/-- C5, amended: on a module without indirect call site, in which `printf` is
not the name of a global variable or of an alias, `runOnModule` returns
`false` and changes no block of any function, and it adds no name string; but
the function `printf`, with the attributes `nounwind` and, on its first
parameter, `nocapture` and `readonly`, and a global with the format string as
initializer are in the module after the run whether or not there is a call
site: steps 1 and 2 look them up or create them on every run, so the module
after the run is the module after steps 1 and 2, with one function more if it
had no `printf`; and when `PrintfFormatStr` is not the name of a function or
of an alias, that global is called `PrintfFormatStr` and the module has one
global more if it had no `PrintfFormatStr`. -/
theorem runOnModule_without_call_site (M : Module)
    (h : M.functions.flatMap callSites = [])
    (hv : findGlobal M.globals "printf" = none) (ha : "printf" ∉ M.aliases) :
    ∃ r : Module × Bool,
      runOnModule M = some r ∧
      r.2 = false ∧
      r.1 = afterSetup M ∧
      (∀ (i : Nat) (F : Function), M.functions[i]? = some F →
        ∃ F', r.1.functions[i]? = some F' ∧ F'.blocks = F.blocks) ∧
      (∃ (j : Nat) (P : Function),
        r.1.functions[j]? = some P ∧ P.name = "printf" ∧
        Attr.NoUnwind ∈ P.fnAttrs ∧ (0, Attr.NoCapture) ∈ P.paramAttrs ∧
        (0, Attr.ReadOnly) ∈ P.paramAttrs) ∧
      r.1.functions.length =
        M.functions.length + (if (findFunction M.functions "printf").isSome then 0 else 1) ∧
      (∃ (k : Nat) (G : GlobalVariable),
        r.1.globals[k]? = some G ∧
        G.initializer = some (Constant.dataArrayString formatString) ∧
        (findFunction M.functions "PrintfFormatStr" = none →
          "PrintfFormatStr" ∉ M.aliases →
          G.name = "PrintfFormatStr" ∧
          r.1.globals.length =
            M.globals.length +
              (if (findGlobal M.globals "PrintfFormatStr").isSome then 0 else 1))) := by
  have hflag : (runResult M).2 = false := by
    rw [runResult_flag_eq]
    simp only [List.flatMap_eq_nil_iff] at h
    simp only [List.any_eq_false, Bool.not_eq_true', Bool.not_eq_false', List.isEmpty_iff,
      Bool.not_eq_true, Bool.not_eq_false]
    exact h
  have hsame : (runResult M).1 = afterSetup M := by
    unfold runResult
    obtain ⟨h1, h2⟩ := instrumented_of_no_target (symbolsOf M) _ (afterSetup_no_target M h)
      (afterSetup M).globals.length
    simp only [h1, h2, List.append_nil]
  refine ⟨runResult M, runOnModule_eq M hv ha, hflag, hsame, ?_, ?_, ?_, ?_⟩
  · intro i F hF
    rw [hsame, afterSetup_function_at M i F hF]
    refine ⟨_, rfl, ?_⟩
    split
    · exact setPrintfAttributes_blocks F
    · rfl
  · rw [hsame]
    obtain ⟨P, hP, hPn⟩ := afterSetup_printf M
    obtain ⟨P', hP', hattrs⟩ := afterSetup_printf_attrs M
    rw [hP] at hP'
    simp only [Option.some.injEq] at hP'
    subst hP'
    exact ⟨printfIndex M, P, hP, hPn, hattrs⟩
  · rw [hsame, afterSetup_functions, length_updateAt]
    split <;> simp
  · rw [hsame]
    obtain ⟨G, hG, hGi⟩ := afterSetup_format_initializer M
    refine ⟨formatIndex M, G, hG, hGi, ?_⟩
    intro hfn han
    obtain ⟨G', hG', hGn, _⟩ := afterSetup_format M hfn han
    rw [hG] at hG'
    simp only [Option.some.injEq] at hG'
    subst hG'
    refine ⟨hGn, ?_⟩
    rw [afterSetup_globals M hfn han, length_updateAt]
    split <;> simp

/-- The amended C5 at the empty module. -/
theorem runOnModule_without_call_site_witness :
    emptyModule.functions.flatMap callSites = [] ∧
    findGlobal emptyModule.globals "printf" = none ∧
    "printf" ∉ emptyModule.aliases ∧
    ∃ r : Module × Bool,
      runOnModule emptyModule = some r ∧
      r.2 = false ∧ r.1.functions.length = 1 ∧ r.1.globals.length = 1 := by
  refine ⟨by decide, by decide, by decide, ?_⟩
  obtain ⟨r, h0, h1, _, _, _, h6, _, _, _, _, h7⟩ :=
    runOnModule_without_call_site emptyModule (by decide) (by decide) (by decide)
  exact ⟨r, h0, h1, by rw [h6]; decide, by rw [(h7 (by decide) (by decide)).2]; decide⟩

/-- C10 on `loadCallModule`: in `g` every use follows its definition; after
the run the injected call stands first in the entry block and passes `%1`,
which the load after it defines, so a use precedes its definition. -/
theorem injected_call_uses_value_before_definition :
    definedBeforeUse loadCallFunction = true ∧
    (runOnModule loadCallModule).map (fun r => r.1.functions[0]?) =
      some (some { loadCallFunction with
        blocks :=
          [[Instr.call none PrintfTy (Value.func "printf" PrintfTy)
              [Value.global 0, Value.global 1, Value.inst 1 Ty.ptr],
            Instr.other (some 1) "load" [Value.arg 0 Ty.ptr],
            Instr.call none { ret := Ty.void, params := [], isVarArg := false }
              (Value.inst 1 Ty.ptr) [],
            Instr.other none "ret" []]] }) ∧
    (runOnModule loadCallModule).map
        (fun r => (r.1.functions[0]?).map definedBeforeUse) = some (some false) := by
  rw [runOnModule_eq _ (by decide) (by decide)]
  decide

/-- C6 on the code: the initializer `runOnModule` installs is the string of
line 54, whose first line begins with `(fp-trance)`, not with the tag
`(fp-trace)` with which its second line begins. -/
theorem format_string_first_tag_misspelt :
    (runOnModule emptyModule).map (fun r => r.1.globals.map (fun G => G.initializer)) =
      some [some (Constant.dataArrayString formatString)] ∧
    formatString = "(fp-trance) Called from: %s\n" ++ "(fp-trace)   Called: %i\n" ∧
    ("(fp-trace)".toList).isPrefixOf formatString.toList = false ∧
    ("(fp-trance) Called from: ".toList).isPrefixOf formatString.toList = true := by
  rw [runOnModule_eq _ (by decide) (by decide)]
  decide

end DynamicFP

/-! ## Theorems about `HelloWorld` -/

namespace HelloWorld

open LLVM

theorem concat_append (a b : List String) : concat (a ++ b) = concat a ++ concat b := by
  induction a with
  | nil => simp [concat]
  | cons r rest ih => simp [concat, ih, String.append_assoc]

/-- What visiting one instruction adds to the file: its row if it is an
indirect call site, nothing otherwise. -/
theorem visitInstruction_csvFile (R : Renderer) (F : Function) (out : Streams) (I : Instr) :
    (visitInstruction R F out I).csvFile = out.csvFile ++ concat (blockRows R F [I]) := by
  cases I with
  | call r fnTy op args =>
    simp only [visitInstruction, blockRows, blockSites, List.filter_cons, isIndirectCall,
      List.filter_nil]
    cases hcf : getCalledFunction fnTy op with
    | some name => simp [concat]
    | none =>
      by_cases hp : op.getType.isPointerTy = true
      · simp [hp, concat, csvRow, getCalledOperand?, printFunctionPointerAddress,
          writeCSVLine]
      · simp [hp, concat]
  | phi r ty inc => simp [visitInstruction, blockRows, blockSites, isIndirectCall, concat]
  | ehPad r ops => simp [visitInstruction, blockRows, blockSites, isIndirectCall, concat]
  | other r opc ops => simp [visitInstruction, blockRows, blockSites, isIndirectCall, concat]

theorem blockRows_cons (R : Renderer) (F : Function) (I : Instr) (B : BasicBlock) :
    blockRows R F (I :: B) = blockRows R F [I] ++ blockRows R F B := by
  have h : I :: B = [I] ++ B := rfl
  rw [h]
  simp only [blockRows, blockSites, List.filter_append, List.filterMap_append]

/-- What the instruction loop adds to the file for one block. -/
theorem foldl_visitInstruction_csvFile (R : Renderer) (F : Function) (B : BasicBlock) :
    ∀ out : Streams, (B.foldl (visitInstruction R F) out).csvFile =
      out.csvFile ++ concat (blockRows R F B) := by
  induction B with
  | nil => intro out; simp [blockRows, blockSites, concat]
  | cons I rest ih =>
    intro out
    rw [List.foldl_cons, ih, visitInstruction_csvFile, String.append_assoc, ← concat_append,
      ← blockRows_cons]

/-- What the block loop adds to the file. -/
theorem foldl_blocks_csvFile (R : Renderer) (F : Function) (bs : List BasicBlock) :
    ∀ out : Streams,
      (bs.foldl (fun out BB => BB.foldl (visitInstruction R F) out) out).csvFile =
        out.csvFile ++ concat (bs.flatMap (blockRows R F)) := by
  induction bs with
  | nil => intro out; simp [concat]
  | cons B rest ih =>
    intro out
    rw [List.foldl_cons, ih, foldl_visitInstruction_csvFile, List.flatMap_cons, concat_append,
      String.append_assoc]

/-- The file after one run of the reporter. -/
theorem run_file (R : Renderer) (F : Function) (file : Option String) (errs : String) :
    (run R F file errs).1 =
      some ((if F.name = "main" then headerRow else file.getD "") ++ concat (csvRows R F)) := by
  simp only [run, foldl_blocks_csvFile, csvRows, writeCSVHeader]
  split <;> simp

theorem csvRows_eq (R : Renderer) (F : Function) :
    csvRows R F = (callSites F).filterMap (csvRow R F) := by
  unfold csvRows callSites
  induction F.blocks with
  | nil => rfl
  | cons B rest ih => simp [List.flatMap_cons, List.filterMap_append, blockRows, ih]

/-- Every indirect call site has a called operand, and so a row. -/
theorem csvRow_of_site (R : Renderer) (F : Function) (site : Instr)
    (h : isIndirectCall site = true) :
    ∃ v, getCalledOperand? site = some v ∧
      csvRow R F site =
        some (F.name ++ "," ++ R.valuePtr v ++ "," ++ R.instPtr site ++ "\n") := by
  cases site <;> simp [isIndirectCall] at h
  exact ⟨_, rfl, rfl⟩

theorem mem_callSites (F : Function) (I : Instr) (h : I ∈ callSites F) :
    isIndirectCall I = true := by
  simp only [callSites, blockSites, List.mem_flatMap, List.mem_filter] at h
  obtain ⟨_, _, _, h2⟩ := h
  exact h2

/-- A `filterMap` that keeps every element keeps the positions. -/
theorem filterMap_getElem?_of_isSome {α β : Type} (f : α → Option β) (l : List α)
    (hall : ∀ x ∈ l, (f x).isSome = true) :
    ∀ (k : Nat) (x : α), l[k]? = some x → (l.filterMap f)[k]? = f x := by
  induction l with
  | nil => intro k x h; simp at h
  | cons y rest ih =>
    intro k x h
    obtain ⟨b, hb⟩ := Option.isSome_iff_exists.1 (hall y (by simp))
    cases k with
    | zero =>
      simp only [List.getElem?_cons_zero, Option.some.injEq] at h
      subst h
      simp [List.filterMap_cons, hb]
    | succ k =>
      simp only [List.getElem?_cons_succ] at h
      have := ih (fun z hz => hall z (by simp [hz])) k x h
      simpa [List.filterMap_cons, hb] using this

theorem filterMap_length_of_isSome {α β : Type} (f : α → Option β) (l : List α)
    (hall : ∀ x ∈ l, (f x).isSome = true) : (l.filterMap f).length = l.length := by
  induction l with
  | nil => rfl
  | cons y rest ih =>
    obtain ⟨b, hb⟩ := Option.isSome_iff_exists.1 (hall y (by simp))
    simp [List.filterMap_cons, hb, ih (fun z hz => hall z (by simp [hz]))]

theorem csvRow_isSome (R : Renderer) (F : Function) :
    ∀ I ∈ callSites F, (csvRow R F I).isSome = true := by
  intro I hI
  obtain ⟨v, _, hrow⟩ := csvRow_of_site R F I (mem_callSites F I hI)
  rw [hrow]
  rfl

/-! ### The claims about `HelloWorld`: C3 and C4 -/

/-- The rows of a function: one per indirect call site, the `k`-th row for
the `k`-th site, made of the function name, the rendering of the called
operand and the rendering of the instruction, separated by commas and ended
by a newline. -/
theorem csvRows_spec (R : Renderer) (F : Function) :
    (csvRows R F).length = (callSites F).length ∧
    ∀ (k : Nat) (site : Instr), (callSites F)[k]? = some site →
      ∃ v, getCalledOperand? site = some v ∧
        (csvRows R F)[k]? =
          some (F.name ++ "," ++ R.valuePtr v ++ "," ++ R.instPtr site ++ "\n") := by
  constructor
  · rw [csvRows_eq]
    exact filterMap_length_of_isSome _ _ (csvRow_isSome R F)
  · intro k site hsite
    have hmem : site ∈ callSites F := List.getElem?_mem hsite
    obtain ⟨v, hv, hrow⟩ := csvRow_of_site R F site (mem_callSites F site hmem)
    refine ⟨v, hv, ?_⟩
    rw [csvRows_eq, filterMap_getElem?_of_isSome _ _ (csvRow_isSome R F) k site hsite, hrow]

/-- C3: for every function `F` and every state of the log before, one run of
the reporter writes exactly one data row per indirect call site of `F` and
none for any other instruction, in block order and then instruction order:
`rows` has as many entries as `F` has sites, its `k`-th entry is
`<function name>,<rendering of the called operand>,<rendering of the
instruction>` and a newline for the `k`-th site.  When `F` is not called
`main` the rows follow the content the log had, which is kept as it was; when
`F` is called `main` they follow one header row `Function Name, Function
Pointer Address, Instruction Address`. -/
theorem run_writes_one_row_per_site (R : Renderer) (F : Function) (file : Option String)
    (errs : String) :
    ∃ rows : List String,
      rows.length = (callSites F).length ∧
      (∀ (k : Nat) (site : Instr), (callSites F)[k]? = some site →
        ∃ v, getCalledOperand? site = some v ∧
          rows[k]? =
            some (F.name ++ "," ++ R.valuePtr v ++ "," ++ R.instPtr site ++ "\n")) ∧
      (F.name ≠ "main" → (run R F file errs).1 = some (file.getD "" ++ concat rows)) ∧
      (F.name = "main" →
        (run R F file errs).1 =
          some ("Function Name, Function Pointer Address, Instruction Address\n" ++
            concat rows)) := by
  refine ⟨csvRows R F, (csvRows_spec R F).1, (csvRows_spec R F).2, ?_, ?_⟩
  · intro hne
    rw [run_file]
    simp [hne]
  · intro hmain
    rw [run_file]
    simp [hmain, headerRow]

/-- A declaration has no row. -/
theorem csvRows_of_declaration (R : Renderer) (F : Function) (h : isDeclaration F = true) :
    csvRows R F = [] := by
  unfold isDeclaration at h
  simp [csvRows, List.isEmpty_iff.1 h]

/-- Over functions none of which is called `main`, the reporter appends the
rows of all of them to the log it finds. -/
theorem runOnFunctions_append (R : Renderer) (fs : List Function)
    (hmain : ∀ F ∈ fs, isDeclaration F = false → F.name ≠ "main") :
    ∀ (content errs : String),
      (runOnFunctions R fs (some content) errs).1 =
        some (content ++ concat (fs.flatMap (csvRows R))) := by
  induction fs with
  | nil => intro content errs; simp [runOnFunctions, concat]
  | cons F rest ih =>
    intro content errs
    have hrest : ∀ G ∈ rest, isDeclaration G = false → G.name ≠ "main" :=
      fun G hG => hmain G (by simp [hG])
    by_cases hd : isDeclaration F = true
    · simp only [runOnFunctions, hd, if_true, List.flatMap_cons,
        csvRows_of_declaration R F hd, List.nil_append]
      exact ih hrest content errs
    · have hne := hmain F (by simp) (by simpa using hd)
      simp only [runOnFunctions, hd, List.flatMap_cons, concat_append]
      have hfile := run_file R F (some content) errs
      simp only [hne, if_false, Option.getD_some] at hfile
      simp only [Bool.false_eq_true, if_false]
      rw [hfile, ih hrest, String.append_assoc]

/-- C4, as stated, fails.  With the three functions called `f1`, `f2`, `f3`
the log ends without header row, because none is called `main`; with them
called `f1`, `f2`, `main` the log ends with the header row and the one row of
`main`, because the run on `main` truncates the file and the two rows of `f1`
are lost. -/
theorem log_depends_on_function_names :
    (runOnFunctions exampleRenderer (threeFunctions "f1" "f2" "f3") none "").1 =
      some "f1,a0,i\nf1,a1,i\nf3,a0,i\n" ∧
    (runOnFunctions exampleRenderer (threeFunctions "f1" "f2" "main") none "").1 =
      some ("Function Name, Function Pointer Address, Instruction Address\n" ++
        "main,a0,i\n") := by
  decide

/-- The log after the reporter ran over functions of which the first that is
not a declaration is called `main` and no other one is. -/
theorem runOnFunctions_main_first (R : Renderer) (fs : List Function) (errs : String)
    (F1 : Function) (others : List Function)
    (hfirst : definedFunctions fs = F1 :: others) (hmain : F1.name = "main")
    (hothers : ∀ F ∈ others, F.name ≠ "main") :
    (runOnFunctions R fs none errs).1 =
      some (headerRow ++ concat (fs.flatMap (csvRows R))) := by
  induction fs with
  | nil => simp [definedFunctions] at hfirst
  | cons F rest ih =>
    by_cases hd : isDeclaration F = true
    · simp only [runOnFunctions, hd, if_true, List.flatMap_cons,
        csvRows_of_declaration R F hd, List.nil_append]
      apply ih
      simpa [definedFunctions, hd] using hfirst
    · have hd2 : isDeclaration F = false := by simpa using hd
      simp only [definedFunctions, List.filter_cons, hd2, Bool.not_false, if_true,
        List.cons.injEq] at hfirst
      obtain ⟨hF, hrest⟩ := hfirst
      subst hF
      simp only [runOnFunctions, hd2, Bool.false_eq_true, if_false, List.flatMap_cons,
        concat_append]
      have hfile := run_file R F none errs
      simp only [hmain, if_true] at hfile
      rw [hfile]
      rw [runOnFunctions_append R rest _ _ _, String.append_assoc]
      intro G hG hGd
      apply hothers
      rw [← hrest]
      simp [definedFunctions, hG, hGd]

/-- C4, amended: for every module in which the first function that is not a
declaration is called `main` and no other one is, running the reporter on
the functions one after another in module order, starting without log file,
leaves a log that consists of the header row, once, followed by the rows of
all indirect call sites of the module in discovery order: function order,
then block order, then instruction order.  `rowsOf F` are the rows of the
function `F`: one per site of `F`, the `k`-th for its `k`-th site. -/
theorem log_of_module_with_main_first (R : Renderer) (fs : List Function) (errs : String)
    (F1 : Function) (others : List Function)
    (hfirst : definedFunctions fs = F1 :: others) (hmain : F1.name = "main")
    (hothers : ∀ F ∈ others, F.name ≠ "main") :
    ∃ rowsOf : Function → List String,
      (∀ F : Function, (rowsOf F).length = (callSites F).length ∧
        ∀ (k : Nat) (site : Instr), (callSites F)[k]? = some site →
          ∃ v, getCalledOperand? site = some v ∧
            (rowsOf F)[k]? =
              some (F.name ++ "," ++ R.valuePtr v ++ "," ++ R.instPtr site ++ "\n")) ∧
      (runOnFunctions R fs none errs).1 =
        some ("Function Name, Function Pointer Address, Instruction Address\n" ++
          concat (fs.flatMap rowsOf)) :=
  ⟨csvRows R, csvRows_spec R, runOnFunctions_main_first R fs errs F1 others hfirst hmain hothers⟩

/-- The amended C4 at three functions with 2, 0 and 1 sites, the first called
`main`: the log holds the header row and 3 data rows, in the order first
function, first function, third function. -/
theorem log_of_module_with_main_first_witness :
    definedFunctions (threeFunctions "main" "f2" "f3") =
      callerTwice "main" :: [returner "f2", callerOnce "f3"] ∧
    (callerTwice "main").name = "main" ∧
    (∀ F ∈ [returner "f2", callerOnce "f3"], F.name ≠ "main") ∧
    (∃ rowsOf : Function → List String,
      (rowsOf (callerTwice "main")).length = 2 ∧
      (rowsOf (returner "f2")).length = 0 ∧
      (rowsOf (callerOnce "f3")).length = 1 ∧
      (runOnFunctions exampleRenderer (threeFunctions "main" "f2" "f3") none "").1 =
        some ("Function Name, Function Pointer Address, Instruction Address\n" ++
          concat (rowsOf (callerTwice "main") ++ (rowsOf (returner "f2") ++
            rowsOf (callerOnce "f3"))))) ∧
    (runOnFunctions exampleRenderer (threeFunctions "main" "f2" "f3") none "").1 =
      some ("Function Name, Function Pointer Address, Instruction Address\n" ++
        "main,a0,i\nmain,a1,i\nf3,a0,i\n") := by
  refine ⟨by decide, by decide, by decide, ?_, by decide⟩
  obtain ⟨rowsOf, hrows, hlog⟩ :=
    log_of_module_with_main_first exampleRenderer (threeFunctions "main" "f2" "f3") ""
      (callerTwice "main") [returner "f2", callerOnce "f3"] (by decide) (by decide) (by decide)
  refine ⟨rowsOf, ?_, ?_, ?_, ?_⟩
  · rw [(hrows _).1]; decide
  · rw [(hrows _).1]; decide
  · rw [(hrows _).1]; decide
  · rw [hlog]
    simp [threeFunctions]

end HelloWorld
